import Mathlib

/-!
# Verification of the EasyExtensions chart-input parsers

Shallow embedding of the text-to-table parsers of
`Sources/EasyExtensions.Crypto.Tests.Charts`:

* `parse_mylib_results` (charts.py, lines 21-54),
* `parse_test_results` (test_parser.py, lines 5-41),
* `parse_openssl_results` (charts.py, lines 57-112).

Modelling conventions:

* Text is `List Char`.  The Python regexes in the source use only
  constructs whose backtracking is deterministic on the relevant
  patterns (each greedy token is followed by a literal that cannot
  occur inside the token's character class), so every matcher below is
  a direct functional transcription of the regex's unique match.
  Character classes `\d` and `\s` are modelled by their ASCII parts
  (Python would additionally accept non-ASCII Unicode digits/spaces).
* Python `float` on a `[\d.]+` token is modelled exactly over `ℚ`:
  the token is a valid float literal iff it has at most one dot and at
  least one digit, and its value is the exact decimal rational.
  (The source only ever compares/stores these values; no float
  rounding is observable in the parsing contract.)
* A Python exception (ValueError from `float`, ZeroDivisionError from
  `/`) is modelled by `Option`: `none` means the call raises.
* `sorted(..., key=...)` (stable) and `DataFrame.sort_values` are both
  modelled by a stable insertion sort on the block-size key; pandas'
  default quicksort may order tied keys differently, but no claim
  depends on tie order.
* Rationals are built with `mkRat`/`Rat.divInt` (kernel-computable);
  bridge lemmas relate them to `/` where statements want division.
-/

/-! ## Characters and low-level scanning -/

/-- ASCII whitespace, the characters matched by Python's `\s` (ASCII part). -/
def pyWS (c : Char) : Bool :=
  c = ' ' || c = '\t' || c = '\n' || c = '\r' || c = '\x0b' || c = '\x0c'

/-- ASCII decimal digit, Python's `\d` (ASCII part). -/
def isDig (c : Char) : Bool :=
  '0' ≤ c && c ≤ '9'

/-- Character class `[\d.]` of the numeric-field tokens. -/
def isNumCh (c : Char) : Bool :=
  isDig c || c = '.'

/-- Drop the maximal whitespace prefix: the unique match of a greedy
`\s*` that is followed by a non-whitespace literal. -/
def skipWS (cs : List Char) : List Char :=
  cs.dropWhile pyWS

/-- Match a literal string prefix, returning the rest (regex literal). -/
def dropLit : List Char → List Char → Option (List Char)
  | [], cs => some cs
  | _, [] => none
  | l :: ls, c :: cs => if c = l then dropLit ls cs else none

/-- Greedy nonempty token of a character class (regex `C+` followed by
a literal not in `C`): the maximal run, failing if empty. -/
def token (p : Char → Bool) (cs : List Char) : Option (List Char × List Char) :=
  if cs.takeWhile p = [] then none else some (cs.takeWhile p, cs.dropWhile p)

/-- The `\s*\|` step of the triplet pattern. -/
def pipe (cs : List Char) : Option (List Char) :=
  match skipWS cs with
  | [] => none
  | x :: r => if x = '|' then some r else none

/-! ## The triplet pattern

charts.py line 42: `(\d+)\s*\|\s*([\d.]+)\s*\|\s*([\d.]+)`.
test_parser.py line 23: `(\d+)\s*\|\s*(\d+)\s*\|\s*([\d.]+)`.
Each greedy token is followed by `\s*\|` (or is final), and giving a
character back from a token would place a class character where `|` is
required, so the match at a given start position is the maximal-munch
one computed here. -/

/-- One attempted match of the charts.py triplet pattern at the start
of `cs`: on success, the three captured groups and the rest of the
input after the match. -/
def matchTriplet (cs : List Char) : Option ((List Char × List Char × List Char) × List Char) :=
  match token isDig cs with
  | none => none
  | some (ds, r1) =>
    match pipe r1 with
    | none => none
    | some r2 =>
      match token isNumCh (skipWS r2) with
      | none => none
      | some (n1, r3) =>
        match pipe r3 with
        | none => none
        | some r4 =>
          match token isNumCh (skipWS r4) with
          | none => none
          | some (n2, r5) => some ((ds, n1, n2), r5)

/-- One attempted match of the test_parser.py triplet pattern (middle
group `(\d+)`, digits only) at the start of `cs`. -/
def matchTripletT (cs : List Char) : Option ((List Char × List Char × List Char) × List Char) :=
  match token isDig cs with
  | none => none
  | some (ds, r1) =>
    match pipe r1 with
    | none => none
    | some r2 =>
      match token isDig (skipWS r2) with
      | none => none
      | some (n1, r3) =>
        match pipe r3 with
        | none => none
        | some r4 =>
          match token isNumCh (skipWS r4) with
          | none => none
          | some (n2, r5) => some ((ds, n1, n2), r5)

/-- `re.findall` scan: try a match at every position, left to right,
continuing after the end of each (nonempty) match.  Fueled for
structural recursion; `fuel ≥ length` is always enough. -/
def findTripletsF (m : List Char → Option ((List Char × List Char × List Char) × List Char)) :
    ℕ → List Char → List (List Char × List Char × List Char)
  | 0, _ => []
  | fuel + 1, cs =>
    match m cs with
    | some (g, r) => g :: findTripletsF m fuel r
    | none =>
      match cs with
      | [] => []
      | _ :: t => findTripletsF m fuel t

/-- All matches of the charts.py triplet pattern, in encounter order. -/
def findTriplets (cs : List Char) : List (List Char × List Char × List Char) :=
  findTripletsF matchTriplet cs.length cs

/-- All matches of the test_parser.py triplet pattern, in encounter order. -/
def findTripletsT (cs : List Char) : List (List Char × List Char × List Char) :=
  findTripletsF matchTripletT cs.length cs

/-! ## Numeric conversion -/

/-- Numeric value of an ASCII digit. -/
def charVal (c : Char) : ℕ :=
  c.toNat - 48

/-- Python `int` on a nonempty ASCII digit string. -/
def natOfDigits (ds : List Char) : ℕ :=
  ds.foldl (fun n c => 10 * n + charVal c) 0

/-- Python `float` on a `[\d.]+` token, exactly over `ℚ`: valid iff at
most one dot and at least one digit; `none` models the ValueError
raised otherwise (e.g. on `"."` or `"1.2.3"`). -/
def floatOfToken (s : List Char) : Option ℚ :=
  match s.dropWhile (fun c => c != '.') with
  | [] =>
    if s.takeWhile (fun c => c != '.') = [] then none
    else some (mkRat (natOfDigits (s.takeWhile (fun c => c != '.'))) 1)
  | _ :: b =>
    if b.contains '.' then none
    else if s.takeWhile (fun c => c != '.') = [] ∧ b = [] then none
    else some (mkRat (natOfDigits (s.takeWhile (fun c => c != '.') ++ b)) (10 ^ b.length))

/-! ## Rows and tables -/

/-- One parsed measurement row (columns `Threads`, `ChunkMB`,
`Throughput` of the DataFrames built in both triplet parsers). -/
structure Row where
  threads : ℕ
  chunkMB : ℚ
  throughput : ℚ
deriving DecidableEq, Repr

/-- Sequence a failing conversion over a list: `none` as soon as one
element fails, modelling an exception escaping the build loop. -/
def optMap (f : α → Option β) : List α → Option (List β)
  | [] => some []
  | a :: l =>
    match f a, optMap f l with
    | some b, some bs => some (b :: bs)
    | _, _ => none

/-- charts.py lines 44-49: `int` the first group, `float` the other two. -/
def rowOfTriplet (t : List Char × List Char × List Char) : Option Row := do
  let ch ← floatOfToken t.2.1
  let thr ← floatOfToken t.2.2
  pure ⟨natOfDigits t.1, ch, thr⟩

/-- test_parser.py lines 28-32: `int` the first two groups, `float` the third. -/
def rowOfTripletT (t : List Char × List Char × List Char) : Option Row := do
  let thr ← floatOfToken t.2.2
  pure ⟨natOfDigits t.1, mkRat (natOfDigits t.2.1) 1, thr⟩

/-! ## Section search

charts.py lines 34-35:
`===\s*NAME\s*===(.*?)(?===|\Z)` with `re.DOTALL`.
test_parser.py lines 12-15:
`=== NAME ===(.*?)(?===|$)` with `re.DOTALL` (no MULTILINE).
The non-greedy body capture ends at the first position where the
lookahead holds: before two consecutive `=`, at end of input, and (for
`$` without MULTILINE) also just before a final newline. -/

/-- Three equals signs, the marker delimiter. -/
def eqs : List Char :=
  ['=', '=', '=']

/-- Encryption section name (charts.py line 34 / test_parser.py line 13). -/
def encName : List Char :=
  ("ENCRYPTION THREAD/CHUNK SWEEP").data

/-- Decryption section name (charts.py line 35 / test_parser.py line 15). -/
def decName : List Char :=
  ("DECRYPTION THREAD/CHUNK SWEEP").data

/-- The canonical marker line text `=== NAME ===`. -/
def markerText (name : List Char) : List Char :=
  eqs ++ ' ' :: (name ++ ' ' :: eqs)

/-- charts.py marker `===\s*NAME\s*===`: each greedy `\s*` is followed
by a non-whitespace literal, so the match is deterministic. -/
def matchMarkerMylib (name cs : List Char) : Option (List Char) :=
  match dropLit eqs cs with
  | none => none
  | some r1 =>
    match dropLit name (skipWS r1) with
    | none => none
    | some r2 => dropLit eqs (skipWS r2)

/-- test_parser.py marker: the exact literal `=== NAME ===`. -/
def matchMarkerTest (name cs : List Char) : Option (List Char) :=
  dropLit (markerText name) cs

/-- `re.search`: leftmost position where the matcher succeeds. -/
def searchFrom (m : List Char → Option (List Char)) : List Char → Option (List Char)
  | [] => m []
  | c :: t =>
    match m (c :: t) with
    | some r => some r
    | none => searchFrom m t

/-- Non-greedy body capture up to the lookahead `(?===|\Z)`: stop
before the first two consecutive `=`, or take everything. -/
def takeBody : List Char → List Char
  | [] => []
  | c :: t =>
    if c = '=' ∧ t.head? = some '=' then []
    else c :: takeBody t

/-- Non-greedy body capture up to `(?===|$)` (no MULTILINE): stop
before the first two consecutive `=`, just before a final newline, or
take everything. -/
def takeBodyT : List Char → List Char
  | [] => []
  | c :: t =>
    if c = '=' ∧ t.head? = some '=' then []
    else if c = '\n' ∧ t = [] then []
    else c :: takeBodyT t

/-- charts.py section search: `some body` iff the marker occurs. -/
def mylibSection (name text : List Char) : Option (List Char) :=
  (searchFrom (matchMarkerMylib name) text).map takeBody

/-- test_parser.py section search. -/
def testSection (name text : List Char) : Option (List Char) :=
  (searchFrom (matchMarkerTest name) text).map takeBodyT

/-! ## The two triplet parsers -/

/-- charts.py `extract` (lines 37-50): an absent section gives an empty
table; otherwise convert every pattern match, an inner `none` being a
ValueError escaping the loop. -/
def extractMylib : Option (List Char) → Option (List Row)
  | none => some []
  | some body => optMap rowOfTriplet (findTriplets body)

/-- test_parser.py `extract_data` (lines 17-34); an absent marker passes
`""`, and an empty body short-circuits to an empty table. -/
def extractTest : Option (List Char) → Option (List Row)
  | none => some []
  | some body =>
    if body.isEmpty then some []
    else optMap rowOfTripletT (findTripletsT body)

/-- charts.py `parse_mylib_results` (lines 21-54) on the file's text:
the encryption and decryption tables, `none` if a conversion raises. -/
def parse_mylib_results (text : List Char) : Option (List Row × List Row) := do
  let e ← extractMylib (mylibSection encName text)
  let d ← extractMylib (mylibSection decName text)
  pure (e, d)

/-- test_parser.py `parse_test_results` (lines 5-41) on the file's text. -/
def parse_test_results (text : List Char) : Option (List Row × List Row) := do
  let e ← extractTest (testSection encName text)
  let d ← extractTest (testSection decName text)
  pure (e, d)

/-! ## The openssl parser (charts.py lines 57-112)

Header regex (line 71, MULTILINE): `^type\s+((?:\d+\s+bytes\s+)+)\s*$`.
Each iteration of the group ends in a greedy `\s+` run; after the last
kept iteration the engine needs `\s*$`, i.e. a position inside that
whitespace run, after at least one of its characters, that is end of
input or just before a `\n`.  Backtracking therefore keeps the longest
iteration prefix whose final whitespace run contains a `\n` after its
first character or reaches end of input; if none qualifies the line
does not match.  Only the `(\d+)` tokens matter downstream (line 97
re-collects them with `(\d+)\s+bytes` over the capture). -/

/-- One iteration `\d+\s+bytes\s+` of the header group: the size
token, the trailing whitespace run, and the rest after the run. -/
def headerIter (cs : List Char) : Option (List Char × List Char × List Char) := do
  let (ds, r1) ← token isDig cs
  let (_, r2) ← token pyWS r1
  let r3 ← dropLit (("bytes").data) r2
  let (run, r4) ← token pyWS r3
  pure (ds, run, r4)

/-- Greedily parse as many header-group iterations as possible. -/
def headerItersF : ℕ → List Char → List (List Char × List Char × List Char)
  | 0, _ => []
  | fuel + 1, cs =>
    match headerIter cs with
    | some (ds, run, rest) => (ds, run, rest) :: headerItersF fuel rest
    | none => []

/-- Backtracking over `\s*$`: keep the longest iteration prefix whose
last trailing whitespace run admits an end-of-line position after at
least one of its characters (a `\n` beyond the first character, or the
run reaching end of input). -/
def headerKeep : List (List Char × List Char × List Char) → Option (List (List Char))
  | [] => none
  | (ds, run, rest) :: t =>
    match headerKeep t with
    | some l => some (ds :: l)
    | none =>
      if (run.drop 1).contains '\n' || rest.isEmpty then some [ds] else none

/-- The header regex tried at one `^` position: on success the list of
size tokens its capture yields. -/
def matchHeaderAt (cs : List Char) : Option (List (List Char)) := do
  let r1 ← dropLit (("type").data) cs
  let (_, r2) ← token pyWS r1
  headerKeep (headerItersF r2.length r2)

/-- `re.search` with MULTILINE `^`-anchored pattern: try the start of
input, then the position after each newline, leftmost first. -/
def searchMLAux (m : List Char → Option α) : List Char → Option α
  | [] => none
  | c :: t =>
    if c = '\n' then
      match m t with
      | some x => some x
      | none => searchMLAux m t
    else searchMLAux m t

/-- Leftmost `^`-anchored match of `m`. -/
def searchML (m : List Char → Option α) (cs : List Char) : Option α :=
  match m cs with
  | some x => some x
  | none => searchMLAux m cs

/-- `\s*$` (MULTILINE) holds somewhere at or after this point without
consuming non-whitespace: the whitespace run ahead contains a `\n` or
reaches end of input. -/
def eolOK (xs : List Char) : Bool :=
  (xs.takeWhile pyWS).contains '\n' || (xs.dropWhile pyWS).isEmpty

/-- Row regex tail `(.+?)\s*$`: the shortest nonempty newline-free
capture after which `\s*$` succeeds. -/
def findC (acc : List Char) : List Char → Option (List Char)
  | [] => none
  | c :: t =>
    if c = '\n' then none
    else if eolOK t then some (acc ++ [c])
    else findC (acc ++ [c]) t

/-- Row regex `\s+` backtracking: try the greedy whitespace prefix
first, then shorter nonempty prefixes. -/
def tryW (r : List Char) : ℕ → Option (List Char)
  | 0 => none
  | w + 1 =>
    match findC [] (r.drop (w + 1)) with
    | some c => some c
    | none => tryW r w

/-- Row regex (line 72, MULTILINE) `^AES-128-GCM\s+(.+?)\s*$` tried at
one `^` position: on success, the captured group. -/
def rowMatchAt (cs : List Char) : Option (List Char) := do
  let r ← dropLit (("AES-128-GCM").data) cs
  tryW r (r.takeWhile pyWS).length

/-- `re.findall(r"([\d.]+)k", row)` (line 99): maximal `[\d.]` runs
immediately followed by `k`. -/
def findKValsF : ℕ → List Char → List (List Char)
  | 0, _ => []
  | fuel + 1, cs =>
    match cs with
    | [] => []
    | _ :: t =>
      if (cs.takeWhile isNumCh).isEmpty then findKValsF fuel t
      else
        match cs.dropWhile isNumCh with
        | 'k' :: r => cs.takeWhile isNumCh :: findKValsF fuel r
        | _ => findKValsF fuel (cs.dropWhile isNumCh)

/-- All `([\d.]+)k` tokens of the captured row. -/
def findKVals (cs : List Char) : List (List Char) :=
  findKValsF cs.length cs

/-- Lower-case an ASCII letter, for `re.IGNORECASE` literals. -/
def lowerC (c : Char) : Char :=
  if 'A' ≤ c && c ≤ 'Z' then Char.ofNat (c.toNat + 32) else c

/-- Case-insensitive literal match. -/
def dropLitCI : List Char → List Char → Option (List Char)
  | [], cs => some cs
  | _, [] => none
  | l :: ls, c :: cs => if lowerC c = lowerC l then dropLitCI ls cs else none

/-- Tail ` in\s+([\d.]+)s` of the first fallback pattern (line 77),
tried at one stop position of the lazy `.*?`; each greedy piece is
followed by a literal outside its class, so it is deterministic. -/
def timesTail (cs : List Char) : Option (List Char × List Char) := do
  let r1 ← dropLitCI ((" in").data) cs
  let (_, r2) ← token pyWS r1
  let (s, r3) ← token isNumCh r2
  let r4 ← dropLitCI (("s").data) r3
  pure (s, r4)

/-- The lazy `.*?` of the first fallback pattern (no DOTALL, so `.`
never matches a newline): try the tail at each position from here on,
consuming one non-newline character after each failure. -/
def findTimesTail : List Char → Option (List Char × List Char)
  | [] => none
  | c :: t =>
    match timesTail (c :: t) with
    | some x => some x
    | none => if c = '\n' then none else findTimesTail t

/-- First fallback pattern (line 77, IGNORECASE)
`on\s+(\d+)\s+size blocks:.*? in\s+([\d.]+)s` tried at one
position: the block-size and seconds tokens and the rest after the
match. -/
def matchTimesAt (cs : List Char) : Option ((List Char × List Char) × List Char) := do
  let r1 ← dropLitCI (("on").data) cs
  let (_, r2) ← token pyWS r1
  let (b, r3) ← token isDig r2
  let (_, r4) ← token pyWS r3
  let r5 ← dropLitCI (("size blocks:").data) r4
  let (g, r6) ← findTimesTail r5
  pure ((b, g), r6)

/-- `re.finditer` scan of the first fallback pattern (lines 80-82). -/
def findTimesF : ℕ → List Char → List (List Char × List Char)
  | 0, _ => []
  | fuel + 1, cs =>
    match matchTimesAt cs with
    | some (g, r) => g :: findTimesF fuel r
    | none =>
      match cs with
      | [] => []
      | _ :: t => findTimesF fuel t

/-- All matches of the first fallback pattern, in encounter order. -/
def findTimes (cs : List Char) : List (List Char × List Char) :=
  findTimesF cs.length cs

/-- Second fallback pattern (line 84, IGNORECASE)
`on\s+(\d+)\s+size blocks:\s*(\d+)\s+AES-128-GCM ops in\s+([\d.]+)s`
tried at one position: block-size, ops and seconds tokens. -/
def matchBlocksAt (cs : List Char) : Option ((List Char × List Char × List Char) × List Char) := do
  let r1 ← dropLitCI (("on").data) cs
  let (_, r2) ← token pyWS r1
  let (b, r3) ← token isDig r2
  let (_, r4) ← token pyWS r3
  let r5 ← dropLitCI (("size blocks:").data) r4
  let (o, r6) ← token isDig (skipWS r5)
  let (_, r7) ← token pyWS r6
  let r8 ← dropLitCI (("AES-128-GCM ops in").data) r7
  let (_, r9) ← token pyWS r8
  let (s, r10) ← token isNumCh r9
  let r11 ← dropLitCI (("s").data) r10
  pure ((b, o, s), r11)

/-- `re.finditer` of the fallback pattern over the whole text. -/
def findBlocks (cs : List Char) : List (List Char × List Char × List Char) :=
  findTripletsF matchBlocksAt cs.length cs

/-- One reference-tool row (columns `BlockBytes`, `ThroughputMBps`,
`Label` of the openssl DataFrame). -/
structure ORow where
  blockBytes : ℕ
  throughputMBps : ℚ
  label : String
deriving DecidableEq, Repr

/-- The label charts.py attaches to every openssl row (lines 92, 110). -/
def opensslLabel : String :=
  "OpenSSL AES-128-GCM"

/-- Exact division of rationals, kernel-computable; equals `a / b`. -/
def qdiv (a b : ℚ) : ℚ :=
  Rat.divInt (a.num * b.den) (a.den * b.num)

/-- Exact division of a rational by a natural, kernel-computable. -/
def qdivNat (a : ℚ) (n : ℕ) : ℚ :=
  Rat.divInt a.num (a.den * n)

/-- Sort key of charts.py lines 93 and 112. -/
def oble (a b : ORow) : Prop :=
  a.blockBytes ≤ b.blockBytes

instance : DecidableRel oble :=
  fun a b => Nat.decLe a.blockBytes b.blockBytes

instance : IsTotal ORow oble :=
  ⟨fun a b => Nat.le_total a.blockBytes b.blockBytes⟩

instance : IsTrans ORow oble :=
  ⟨fun _ _ _ h h' => Nat.le_trans h h'⟩

/-- Stable sort by ascending block size (Python `sorted` with a key is
stable; pandas `sort_values` may break ties differently, but no
contract here depends on tie order). -/
def sortByBlock (l : List ORow) : List ORow :=
  List.insertionSort oble l

/-- charts.py lines 85-93: one fallback row; `float` may raise and
`ops * block / secs` raises ZeroDivisionError when `secs` is zero. -/
def blockRow (t : List Char × List Char × List Char) : Option ORow := do
  let secs ← floatOfToken t.2.2
  if secs = 0 then none
  else
    pure ⟨natOfDigits t.1,
      qdivNat (qdiv (mkRat (natOfDigits t.2.1 * natOfDigits t.1) 1) secs) 1000000,
      opensslLabel⟩

/-- charts.py fallback path (lines 75-93): the first loop (lines
80-82) only fills `sizes`/`times`, which are never read afterwards,
but its `float(m.group(2))` can still raise ValueError; `int` on the
`(\d+)` group cannot fail.  Then the second loop builds the rows. -/
def fallbackRows (text : List Char) : Option (List ORow) := do
  let _ ← optMap floatOfToken ((findTimes text).map (fun g => g.2))
  let rows ← optMap blockRow (findBlocks text)
  pure (sortByBlock rows)

/-- charts.py lines 100-111: align sizes and values by the minimum
length and zip them into rows, converting `k`-values to MB/s. -/
def zipORows (sizes : List (List Char)) (vals : List ℚ) : List ORow :=
  List.zipWith (fun b m => ⟨b, m, opensslLabel⟩)
    ((sizes.map natOfDigits).take (min sizes.length vals.length))
    ((vals.map (fun v => qdivNat v 1000)).take (min sizes.length vals.length))

/-- charts.py structured path (lines 95-112): sizes zipped with
`k`-values truncated to the shorter list, each value divided by 1000. -/
def structuredRows (sizes : List (List Char)) (c : List Char) : Option (List ORow) := do
  let vals ← optMap floatOfToken (findKVals c)
  pure (sortByBlock (zipORows sizes vals))

/-- charts.py `parse_openssl_results` (lines 57-112). -/
def parse_openssl_results (text : List Char) : Option (List ORow) :=
  match searchML matchHeaderAt text, searchML rowMatchAt text with
  | some sizes, some c => structuredRows sizes c
  | _, _ => fallbackRows text

/-! ## Line counting (for the combined-row-count contract) -/

/-- Number of lines of a section body in which the charts.py triplet
pattern has at least one match. -/
def matchingLineCount (body : List Char) : ℕ :=
  ((body.splitOn '\n').filter (fun l => !(findTriplets l).isEmpty)).length

/-! ## Counterexamples -/

/-- Claim C1 is false as stated: `findall` counts pattern occurrences,
not lines, and one line can hold two triplet matches.  On this input
both markers are present with at least one valid row each, the parser
returns 2 + 1 = 3 rows, but only 2 lines across the two section bodies
match the triplet pattern. -/
theorem C1_counterexample :
    parse_mylib_results (("=== ENCRYPTION THREAD/CHUNK SWEEP ===\n1 | 2 | 3 4 | 5 | 6\n=== DECRYPTION THREAD/CHUNK SWEEP ===\n1 | 2 | 3\n").data) =
      some ([⟨1, mkRat 2 1, mkRat 3 1⟩, ⟨4, mkRat 5 1, mkRat 6 1⟩],
        [⟨1, mkRat 2 1, mkRat 3 1⟩]) ∧
    matchingLineCount ((mylibSection encName (("=== ENCRYPTION THREAD/CHUNK SWEEP ===\n1 | 2 | 3 4 | 5 | 6\n=== DECRYPTION THREAD/CHUNK SWEEP ===\n1 | 2 | 3\n").data)).getD []) +
      matchingLineCount ((mylibSection decName (("=== ENCRYPTION THREAD/CHUNK SWEEP ===\n1 | 2 | 3 4 | 5 | 6\n=== DECRYPTION THREAD/CHUNK SWEEP ===\n1 | 2 | 3\n").data)).getD []) = 2 ∧
    (2 + 1 : ℕ) ≠ 2 := by
  decide

/-- Claim C2 is false as stated: with the encryption marker absent the
parser can still raise, because the decryption section contains the
regex-matching row `1 | . | 2` and Python `float(".")` raises
ValueError.  So "returns an empty table … and does not raise any
error" fails. -/
theorem C2_counterexample :
    searchFrom (matchMarkerMylib encName)
      (("=== DECRYPTION THREAD/CHUNK SWEEP ===\n1 | . | 2\n").data) = none ∧
    parse_mylib_results (("=== DECRYPTION THREAD/CHUNK SWEEP ===\n1 | . | 2\n").data) = none := by
  decide

/-- Claim C3 is false as stated: the malformed line `1 | . | 2`
matches the triplet regex, `float(".")` raises ValueError, and the
valid rows before and after it are lost — the parser raises instead of
skipping silently. -/
theorem C3_counterexample :
    parse_mylib_results (("=== ENCRYPTION THREAD/CHUNK SWEEP ===\n1 | 2 | 3\n1 | . | 2\n4 | 5 | 6\n").data) = none := by
  decide

/-- Claim C4 is false as stated: `parse_test_results` uses `(\d+)` for
the chunk field, so the line `2 | 0.5 | 100.0` yields a row under
`parse_mylib_results` but no row at all under `parse_test_results`. -/
theorem C4_counterexample :
    parse_mylib_results (("=== ENCRYPTION THREAD/CHUNK SWEEP ===\n2 | 0.5 | 100.0\n").data) =
      some ([⟨2, mkRat 5 10, mkRat 1000 10⟩], []) ∧
    parse_test_results (("=== ENCRYPTION THREAD/CHUNK SWEEP ===\n2 | 0.5 | 100.0\n").data) =
      some ([], []) := by
  decide

/-- Claim C5 is false as stated: `(\d+)` matches `0`, so the row
`0 | 0 | 0` parses to threads = 0 (violating `threads ≥ 1`) and chunk
size 0 (violating `chunk_size_mb > 0`). -/
theorem C5_counterexample :
    parse_mylib_results (("=== ENCRYPTION THREAD/CHUNK SWEEP ===\n0 | 0 | 0\n").data) =
      some ([⟨0, mkRat 0 1, mkRat 0 1⟩], []) ∧
    ¬ (1 ≤ (0 : ℕ)) ∧
    ¬ (mkRat 0 1 < mkRat 0 1) := by
  decide

/-- Claim C6 is false as stated: the lookahead is `(?===|\Z)`, two
equals signs, not a `===`-prefixed marker.  On this input no `===`
occurs after the marker, so the claim says the body is captured in
full; but the capture stops at the `==` inside `x == y`, and the row
`4 | 5 | 6` is lost. -/
theorem C6_counterexample :
    ¬ (eqs <:+: (("\n1 | 2 | 3\nx == y\n4 | 5 | 6\n").data)) ∧
    mylibSection encName (("=== ENCRYPTION THREAD/CHUNK SWEEP ===\n1 | 2 | 3\nx == y\n4 | 5 | 6\n").data) =
      some (("\n1 | 2 | 3\nx ").data) ∧
    (("\n1 | 2 | 3\nx ").data : List Char) ≠ (("\n1 | 2 | 3\nx == y\n4 | 5 | 6\n").data) ∧
    parse_mylib_results (("=== ENCRYPTION THREAD/CHUNK SWEEP ===\n1 | 2 | 3\nx == y\n4 | 5 | 6\n").data) =
      some ([⟨1, mkRat 2 1, mkRat 3 1⟩], []) := by
  decide

/-- Claim C7 is false as stated: on the exact example input the header
regex `^type\s+((?:\d+\s+bytes\s+)+)\s*$` does not match — the group
demands `\s+` after the final `bytes`, which swallows the newline and
leaves `$` unsatisfiable before the next line — so the parser falls
back and returns an empty table, not the two claimed rows (whose
claimed label also differs from the code's `OpenSSL AES-128-GCM`). -/
theorem C7_counterexample :
    parse_openssl_results (("type 16 bytes 64 bytes\nAES-128-GCM 103872.58k 205000.00k\n").data) =
      some [] ∧
    ([] : List ORow) ≠
      [⟨16, mkRat 10387258 100000, "AES-128-GCM"⟩, ⟨64, mkRat 205 1, "AES-128-GCM"⟩] := by
  decide

/-- Claim C8 is false as stated: on this input the structured shape is
absent and exactly one free-form block-report line matches, but its
seconds field is `0`, so `ops * block / secs` raises ZeroDivisionError
instead of producing a row (or an empty table). -/
theorem C8_counterexample :
    searchML matchHeaderAt (("Doing AES-128-GCM ops for 3s on 16 size blocks: 5 AES-128-GCM ops in 0s\n").data) = none ∧
    findBlocks (("Doing AES-128-GCM ops for 3s on 16 size blocks: 5 AES-128-GCM ops in 0s\n").data) ≠ [] ∧
    parse_openssl_results (("Doing AES-128-GCM ops for 3s on 16 size blocks: 5 AES-128-GCM ops in 0s\n").data) = none := by
  decide

/-- Claim C10 is false as stated: the two implementations disagree on
a decimal chunk field. -/
theorem C10_counterexample :
    parse_mylib_results (("=== ENCRYPTION THREAD/CHUNK SWEEP ===\n2 | 0.5 | 100.0\n4 | 2 | 50\n").data) =
      some ([⟨2, mkRat 5 10, mkRat 1000 10⟩, ⟨4, mkRat 2 1, mkRat 50 1⟩], []) ∧
    parse_test_results (("=== ENCRYPTION THREAD/CHUNK SWEEP ===\n2 | 0.5 | 100.0\n4 | 2 | 50\n").data) =
      some ([⟨4, mkRat 2 1, mkRat 50 1⟩], []) ∧
    parse_mylib_results (("=== ENCRYPTION THREAD/CHUNK SWEEP ===\n2 | 0.5 | 100.0\n4 | 2 | 50\n").data) ≠
      parse_test_results (("=== ENCRYPTION THREAD/CHUNK SWEEP ===\n2 | 0.5 | 100.0\n4 | 2 | 50\n").data) := by
  decide

/-! ## Basic lemmas about the scanning primitives -/

theorem token_eq_some {p : Char → Bool} {cs t r : List Char}
    (h : token p cs = some (t, r)) :
    t = cs.takeWhile p ∧ r = cs.dropWhile p ∧ t ≠ [] := by
  by_cases he : cs.takeWhile p = []
  · simp [token, he] at h
  · simp only [token, he, if_false, Option.some.injEq, Prod.mk.injEq] at h
    exact ⟨h.1.symm, h.2.symm, fun hn => he (h.1.symm ▸ hn)⟩

theorem length_takeWhile_add_dropWhile (p : α → Bool) (cs : List α) :
    (cs.takeWhile p).length + (cs.dropWhile p).length = cs.length := by
  have h := congrArg List.length (List.takeWhile_append_dropWhile (p := p) (l := cs))
  rw [List.length_append] at h
  exact h

theorem token_length_lt {p : Char → Bool} {cs t r : List Char}
    (h : token p cs = some (t, r)) : r.length < cs.length := by
  obtain ⟨rfl, rfl, hne⟩ := token_eq_some h
  have hsum := length_takeWhile_add_dropWhile p cs
  have hpos : 0 < (cs.takeWhile p).length := List.length_pos.2 hne
  omega

theorem skipWS_length_le (cs : List Char) : (skipWS cs).length ≤ cs.length := by
  have hsum := length_takeWhile_add_dropWhile pyWS cs
  unfold skipWS
  omega

theorem pipe_eq_nil {cs : List Char} (h : skipWS cs = []) : pipe cs = none := by
  unfold pipe
  rw [h]

theorem pipe_eq_cons {cs : List Char} {x : Char} {t : List Char} (h : skipWS cs = x :: t) :
    pipe cs = if x = '|' then some t else none := by
  unfold pipe
  rw [h]

theorem pipe_length_lt {cs r : List Char} (h : pipe cs = some r) :
    r.length < cs.length := by
  cases hsw : skipWS cs with
  | nil =>
    rw [pipe_eq_nil hsw] at h
    simp at h
  | cons x t =>
    rw [pipe_eq_cons hsw] at h
    split at h
    · obtain rfl := Option.some.inj h
      have hle := skipWS_length_le cs
      rw [hsw] at hle
      simp only [List.length_cons] at hle
      omega
    · simp at h

theorem matchTriplet_inv {cs : List Char} {g r}
    (h : matchTriplet cs = some (g, r)) :
    ∃ ds r1 r2 n1 r3 r4 n2,
      token isDig cs = some (ds, r1) ∧ pipe r1 = some r2 ∧
      token isNumCh (skipWS r2) = some (n1, r3) ∧ pipe r3 = some r4 ∧
      token isNumCh (skipWS r4) = some (n2, r) ∧ g = (ds, n1, n2) := by
  cases h1 : token isDig cs with
  | none => simp [matchTriplet, h1] at h
  | some x =>
    obtain ⟨ds, r1⟩ := x
    cases h2 : pipe r1 with
    | none => simp [matchTriplet, h1, h2] at h
    | some r2 =>
      cases h3 : token isNumCh (skipWS r2) with
      | none => simp [matchTriplet, h1, h2, h3] at h
      | some y =>
        obtain ⟨n1, r3⟩ := y
        cases h4 : pipe r3 with
        | none => simp [matchTriplet, h1, h2, h3, h4] at h
        | some r4 =>
          cases h5 : token isNumCh (skipWS r4) with
          | none => simp [matchTriplet, h1, h2, h3, h4, h5] at h
          | some z =>
            obtain ⟨n2, r5⟩ := z
            simp only [matchTriplet, h1, h2, h3, h4, h5, Option.some.injEq,
              Prod.mk.injEq] at h
            obtain ⟨hg, hr⟩ := h
            subst hr
            exact ⟨ds, r1, r2, n1, r3, r4, n2, rfl, h2, h3, h4, h5, hg.symm⟩

theorem matchTripletT_inv {cs : List Char} {g r}
    (h : matchTripletT cs = some (g, r)) :
    ∃ ds r1 r2 n1 r3 r4 n2,
      token isDig cs = some (ds, r1) ∧ pipe r1 = some r2 ∧
      token isDig (skipWS r2) = some (n1, r3) ∧ pipe r3 = some r4 ∧
      token isNumCh (skipWS r4) = some (n2, r) ∧ g = (ds, n1, n2) := by
  cases h1 : token isDig cs with
  | none => simp [matchTripletT, h1] at h
  | some x =>
    obtain ⟨ds, r1⟩ := x
    cases h2 : pipe r1 with
    | none => simp [matchTripletT, h1, h2] at h
    | some r2 =>
      cases h3 : token isDig (skipWS r2) with
      | none => simp [matchTripletT, h1, h2, h3] at h
      | some y =>
        obtain ⟨n1, r3⟩ := y
        cases h4 : pipe r3 with
        | none => simp [matchTripletT, h1, h2, h3, h4] at h
        | some r4 =>
          cases h5 : token isNumCh (skipWS r4) with
          | none => simp [matchTripletT, h1, h2, h3, h4, h5] at h
          | some z =>
            obtain ⟨n2, r5⟩ := z
            simp only [matchTripletT, h1, h2, h3, h4, h5, Option.some.injEq,
              Prod.mk.injEq] at h
            obtain ⟨hg, hr⟩ := h
            subst hr
            exact ⟨ds, r1, r2, n1, r3, r4, n2, rfl, h2, h3, h4, h5, hg.symm⟩

theorem matchTriplet_mk {cs ds r1 r2 n1 r3 r4 n2 r5 : List Char}
    (h1 : token isDig cs = some (ds, r1)) (h2 : pipe r1 = some r2)
    (h3 : token isNumCh (skipWS r2) = some (n1, r3)) (h4 : pipe r3 = some r4)
    (h5 : token isNumCh (skipWS r4) = some (n2, r5)) :
    matchTriplet cs = some ((ds, n1, n2), r5) := by
  simp [matchTriplet, h1, h2, h3, h4, h5]

theorem matchTripletT_mk {cs ds r1 r2 n1 r3 r4 n2 r5 : List Char}
    (h1 : token isDig cs = some (ds, r1)) (h2 : pipe r1 = some r2)
    (h3 : token isDig (skipWS r2) = some (n1, r3)) (h4 : pipe r3 = some r4)
    (h5 : token isNumCh (skipWS r4) = some (n2, r5)) :
    matchTripletT cs = some ((ds, n1, n2), r5) := by
  simp [matchTripletT, h1, h2, h3, h4, h5]

theorem matchTriplet_none_of_token {cs : List Char}
    (h : token isDig cs = none) : matchTriplet cs = none := by
  simp [matchTriplet, h]

theorem matchTriplet_none_of_pipe {cs ds r1 : List Char}
    (h1 : token isDig cs = some (ds, r1)) (h2 : pipe r1 = none) :
    matchTriplet cs = none := by
  simp [matchTriplet, h1, h2]

theorem matchTripletT_none_of_token {cs : List Char}
    (h : token isDig cs = none) : matchTripletT cs = none := by
  simp [matchTripletT, h]

theorem matchTriplet_rest_lt {cs : List Char} {g r}
    (h : matchTriplet cs = some (g, r)) : r.length < cs.length := by
  obtain ⟨ds, r1, r2, n1, r3, r4, n2, h1, h2, h3, h4, h5, _⟩ := matchTriplet_inv h
  have l1 := token_length_lt h1
  have l2 := pipe_length_lt h2
  have l3 := token_length_lt h3
  have l4 := pipe_length_lt h4
  have l5 := token_length_lt h5
  have s2 := skipWS_length_le r2
  have s4 := skipWS_length_le r4
  omega

theorem matchTripletT_rest_lt {cs : List Char} {g r}
    (h : matchTripletT cs = some (g, r)) : r.length < cs.length := by
  obtain ⟨ds, r1, r2, n1, r3, r4, n2, h1, h2, h3, h4, h5, _⟩ := matchTripletT_inv h
  have l1 := token_length_lt h1
  have l2 := pipe_length_lt h2
  have l3 := token_length_lt h3
  have l4 := pipe_length_lt h4
  have l5 := token_length_lt h5
  have s2 := skipWS_length_le r2
  have s4 := skipWS_length_le r4
  omega

/-- A matcher that always consumes at least one character. -/
def Shrinking (m : List Char → Option ((List Char × List Char × List Char) × List Char)) : Prop :=
  ∀ cs g r, m cs = some (g, r) → r.length < cs.length

theorem shrinking_matchTriplet : Shrinking matchTriplet :=
  fun _ _ _ h => matchTriplet_rest_lt h

theorem shrinking_matchTripletT : Shrinking matchTripletT :=
  fun _ _ _ h => matchTripletT_rest_lt h

theorem findTripletsF_succ (m) (fuel : ℕ) (cs : List Char) :
    findTripletsF m (fuel + 1) cs =
      match m cs with
      | some (g, r) => g :: findTripletsF m fuel r
      | none =>
        match cs with
        | [] => []
        | _ :: t => findTripletsF m fuel t := rfl

theorem findTripletsF_succ_some {m} {fuel : ℕ} {cs g r}
    (h : m cs = some (g, r)) :
    findTripletsF m (fuel + 1) cs = g :: findTripletsF m fuel r := by
  rw [findTripletsF_succ, h]

theorem findTripletsF_succ_none {m} {fuel : ℕ} {c : Char} {t : List Char}
    (h : m (c :: t) = none) :
    findTripletsF m (fuel + 1) (c :: t) = findTripletsF m fuel t := by
  rw [findTripletsF_succ, h]

theorem findTripletsF_nil {m} (hm : Shrinking m) : ∀ f, findTripletsF m f [] = [] := by
  intro f
  cases f with
  | zero => rfl
  | succ f =>
    rw [findTripletsF_succ]
    cases h : m [] with
    | none => simp
    | some gr =>
      exact absurd (hm [] gr.1 gr.2 (by simpa using h)) (by simp)

theorem findTripletsF_congr {m} (hm : Shrinking m) :
    ∀ f₁ f₂ cs, cs.length ≤ f₁ → cs.length ≤ f₂ →
      findTripletsF m f₁ cs = findTripletsF m f₂ cs := by
  intro f₁
  induction f₁ with
  | zero =>
    intro f₂ cs h1 _
    rw [List.length_eq_zero.1 (Nat.le_zero.1 h1), findTripletsF_nil hm, findTripletsF_nil hm]
  | succ f₁ ih =>
    intro f₂ cs h1 h2
    cases cs with
    | nil => rw [findTripletsF_nil hm, findTripletsF_nil hm]
    | cons c t =>
      cases f₂ with
      | zero => simp at h2
      | succ f₂ =>
        cases h : m (c :: t) with
        | some gr =>
          obtain ⟨g, r⟩ := gr
          have hr : r.length < (c :: t).length := hm _ _ _ h
          rw [findTripletsF_succ_some h, findTripletsF_succ_some h,
            ih f₂ r (by simp only [List.length_cons] at hr h1; omega)
              (by simp only [List.length_cons] at hr h2; omega)]
        | none =>
          rw [findTripletsF_succ_none h, findTripletsF_succ_none h,
            ih f₂ t (by simpa using h1) (by simpa using h2)]

theorem findTriplets_cons_some {cs : List Char} {g r}
    (h : matchTriplet cs = some (g, r)) :
    findTriplets cs = g :: findTriplets r := by
  have hr : r.length < cs.length := matchTriplet_rest_lt h
  cases cs with
  | nil => simp at hr
  | cons c t =>
    unfold findTriplets
    rw [List.length_cons, findTripletsF_succ_some h]
    exact congrArg _ (findTripletsF_congr shrinking_matchTriplet t.length r.length r
      (by simp at hr; omega) le_rfl)

theorem findTriplets_cons_none {c : Char} {t : List Char}
    (h : matchTriplet (c :: t) = none) :
    findTriplets (c :: t) = findTriplets t := by
  unfold findTriplets
  rw [List.length_cons, findTripletsF_succ_none h]

theorem findTripletsT_cons_some {cs : List Char} {g r}
    (h : matchTripletT cs = some (g, r)) :
    findTripletsT cs = g :: findTripletsT r := by
  have hr : r.length < cs.length := matchTripletT_rest_lt h
  cases cs with
  | nil => simp at hr
  | cons c t =>
    unfold findTripletsT
    rw [List.length_cons, findTripletsF_succ_some h]
    exact congrArg _ (findTripletsF_congr shrinking_matchTripletT t.length r.length r
      (by simp at hr; omega) le_rfl)

theorem findTripletsT_cons_none {c : Char} {t : List Char}
    (h : matchTripletT (c :: t) = none) :
    findTripletsT (c :: t) = findTripletsT t := by
  unfold findTripletsT
  rw [List.length_cons, findTripletsF_succ_none h]

/-! ## Lemmas about `optMap` and the parser assembly -/

theorem optMap_length {f : α → Option β} :
    ∀ {l : List α} {bs : List β}, optMap f l = some bs → bs.length = l.length := by
  intro l
  induction l with
  | nil =>
    intro bs h
    simp only [optMap, Option.some.injEq] at h
    simp [← h]
  | cons a l ih =>
    intro bs h
    unfold optMap at h
    cases hfa : f a with
    | none => rw [hfa] at h; simp at h
    | some b =>
      rw [hfa] at h
      cases hl : optMap f l with
      | none => rw [hl] at h; simp at h
      | some bs' =>
        rw [hl] at h
        simp only [Option.some.injEq] at h
        subst h
        simp [ih hl]

theorem optMap_mem {f : α → Option β} :
    ∀ {l : List α} {bs : List β}, optMap f l = some bs →
      ∀ b ∈ bs, ∃ a ∈ l, f a = some b := by
  intro l
  induction l with
  | nil =>
    intro bs h b hb
    simp only [optMap, Option.some.injEq] at h
    subst h
    simp at hb
  | cons a l ih =>
    intro bs h b hb
    unfold optMap at h
    cases hfa : f a with
    | none => rw [hfa] at h; simp at h
    | some b' =>
      rw [hfa] at h
      cases hl : optMap f l with
      | none => rw [hl] at h; simp at h
      | some bs' =>
        rw [hl] at h
        simp only [Option.some.injEq] at h
        subst h
        rcases List.mem_cons.1 hb with rfl | hb'
        · exact ⟨a, List.mem_cons_self .., hfa⟩
        · obtain ⟨a', ha', hfa'⟩ := ih hl b hb'
          exact ⟨a', List.mem_cons_of_mem _ ha', hfa'⟩

theorem optMap_of_forall {f : α → Option β} (g : α → β) :
    ∀ {l : List α}, (∀ a ∈ l, f a = some (g a)) → optMap f l = some (l.map g) := by
  intro l
  induction l with
  | nil => intro _; rfl
  | cons a l ih =>
    intro h
    unfold optMap
    rw [h a (List.mem_cons_self ..), ih (fun x hx => h x (List.mem_cons_of_mem _ hx))]
    simp

theorem parse_mylib_eq {text : List Char} {e d : List Row} :
    parse_mylib_results text = some (e, d) ↔
      extractMylib (mylibSection encName text) = some e ∧
      extractMylib (mylibSection decName text) = some d := by
  unfold parse_mylib_results
  cases h1 : extractMylib (mylibSection encName text) with
  | none => simp [bind, h1]
  | some e' =>
    cases h2 : extractMylib (mylibSection decName text) with
    | none => simp [bind, h1, h2]
    | some d' =>
      simp [bind, h1, h2, pure]

theorem parse_test_eq {text : List Char} {e d : List Row} :
    parse_test_results text = some (e, d) ↔
      extractTest (testSection encName text) = some e ∧
      extractTest (testSection decName text) = some d := by
  unfold parse_test_results
  cases h1 : extractTest (testSection encName text) with
  | none => simp [bind, h1]
  | some e' =>
    cases h2 : extractTest (testSection decName text) with
    | none => simp [bind, h1, h2]
    | some d' =>
      simp [bind, h1, h2, pure]

/-! ## Facts about the numeric conversion -/

theorem mkRat_natCast_nonneg (n d : ℕ) : 0 ≤ mkRat (n : ℤ) d := by
  rw [Rat.mkRat_eq_divInt, Rat.divInt_eq_div]
  have h1 : (0 : ℚ) ≤ ((n : ℤ) : ℚ) := by positivity
  have h2 : (0 : ℚ) ≤ ((d : ℤ) : ℚ) := by positivity
  exact div_nonneg h1 h2

theorem mkRat_den_dvd (n : ℤ) (d : ℕ) : (mkRat n d).den ∣ d := by
  rw [Rat.mkRat_eq_divInt]
  have h := Rat.den_dvd n (d : ℤ)
  exact_mod_cast h

/-- The values Python `float` yields on matched numeric tokens: a
nonnegative rational whose denominator divides a power of ten. -/
def RatDec (q : ℚ) : Prop :=
  0 ≤ q ∧ ∃ k : ℕ, q.den ∣ 10 ^ k

theorem floatOfToken_ratDec {s : List Char} {q : ℚ}
    (h : floatOfToken s = some q) : RatDec q := by
  unfold floatOfToken at h
  split at h
  · split at h
    · exact absurd h (by simp)
    · obtain rfl := Option.some.inj h
      exact ⟨mkRat_natCast_nonneg _ _, 0, by rw [pow_zero]; exact mkRat_den_dvd _ 1⟩
  · split at h
    · exact absurd h (by simp)
    · split at h
      · exact absurd h (by simp)
      · obtain rfl := Option.some.inj h
        exact ⟨mkRat_natCast_nonneg _ _, _, mkRat_den_dvd _ _⟩

theorem floatOfToken_nonneg {s : List Char} {q : ℚ}
    (h : floatOfToken s = some q) : 0 ≤ q :=
  (floatOfToken_ratDec h).1

theorem rowOfTriplet_inv {t : List Char × List Char × List Char} {r : Row}
    (h : rowOfTriplet t = some r) :
    ∃ ch thr, floatOfToken t.2.1 = some ch ∧ floatOfToken t.2.2 = some thr ∧
      r = ⟨natOfDigits t.1, ch, thr⟩ := by
  unfold rowOfTriplet at h
  cases h1 : floatOfToken t.2.1 with
  | none => rw [h1] at h; simp [bind] at h
  | some ch =>
    rw [h1] at h
    cases h2 : floatOfToken t.2.2 with
    | none => rw [h2] at h; simp [bind] at h
    | some thr =>
      rw [h2] at h
      simp only [bind, Option.some_bind, pure, Option.some.injEq] at h
      exact ⟨ch, thr, rfl, rfl, h.symm⟩

theorem rowOfTripletT_inv {t : List Char × List Char × List Char} {r : Row}
    (h : rowOfTripletT t = some r) :
    ∃ thr, floatOfToken t.2.2 = some thr ∧
      r = ⟨natOfDigits t.1, mkRat (natOfDigits t.2.1) 1, thr⟩ := by
  unfold rowOfTripletT at h
  cases h2 : floatOfToken t.2.2 with
  | none => rw [h2] at h; simp [bind] at h
  | some thr =>
    rw [h2] at h
    simp only [bind, Option.some_bind, pure, Option.some.injEq] at h
    exact ⟨thr, rfl, h.symm⟩

theorem extractMylib_some (body : List Char) :
    extractMylib (some body) = optMap rowOfTriplet (findTriplets body) := rfl

theorem extractTest_some (body : List Char) :
    extractTest (some body) =
      if body.isEmpty then some [] else optMap rowOfTripletT (findTripletsT body) := rfl

theorem extractMylib_mem_nonneg {sec : Option (List Char)} {rows : List Row}
    (h : extractMylib sec = some rows) :
    ∀ r ∈ rows, 0 ≤ r.chunkMB ∧ 0 ≤ r.throughput := by
  intro r hr
  cases sec with
  | none =>
    obtain rfl := Option.some.inj h
    simp at hr
  | some body =>
    rw [extractMylib_some] at h
    obtain ⟨t, _, hrow⟩ := optMap_mem h r hr
    obtain ⟨ch, thr, hch, hthr, rfl⟩ := rowOfTriplet_inv hrow
    exact ⟨floatOfToken_nonneg hch, floatOfToken_nonneg hthr⟩

theorem extractTest_mem_nonneg {sec : Option (List Char)} {rows : List Row}
    (h : extractTest sec = some rows) :
    ∀ r ∈ rows, 0 ≤ r.chunkMB ∧ 0 ≤ r.throughput := by
  intro r hr
  cases sec with
  | none =>
    obtain rfl := Option.some.inj h
    simp at hr
  | some body =>
    rw [extractTest_some] at h
    split at h
    · obtain rfl := Option.some.inj h
      simp at hr
    · obtain ⟨t, _, hrow⟩ := optMap_mem h r hr
      obtain ⟨thr, hthr, rfl⟩ := rowOfTripletT_inv hrow
      exact ⟨mkRat_natCast_nonneg _ _, floatOfToken_nonneg hthr⟩

/-! ## C1: combined row count -/

/-- Claim C1, amended: on any input on which the parser succeeds with
both markers present and at least one triplet-pattern occurrence in
each captured section body, both tables are non-empty and the combined
row count equals the number of non-overlapping pattern occurrences in
the two section bodies (not the number of matching lines: one line can
carry several occurrences, and an occurrence can span lines).  Stated
for both implementations of the contract. -/
theorem C1_occurrence_count (t1 t2 : List Char) (e1 d1 e2 d2 : List Row)
    (be1 bd1 be2 bd2 : List Char)
    (hp1 : parse_mylib_results t1 = some (e1, d1))
    (he1 : mylibSection encName t1 = some be1)
    (hd1 : mylibSection decName t1 = some bd1)
    (hne1 : findTriplets be1 ≠ []) (hnd1 : findTriplets bd1 ≠ [])
    (hp2 : parse_test_results t2 = some (e2, d2))
    (he2 : testSection encName t2 = some be2)
    (hd2 : testSection decName t2 = some bd2)
    (hne2 : findTripletsT be2 ≠ []) (hnd2 : findTripletsT bd2 ≠ []) :
    (e1 ≠ [] ∧ d1 ≠ [] ∧
      e1.length + d1.length = (findTriplets be1).length + (findTriplets bd1).length) ∧
    (e2 ≠ [] ∧ d2 ≠ [] ∧
      e2.length + d2.length = (findTripletsT be2).length + (findTripletsT bd2).length) := by
  obtain ⟨hx1, hy1⟩ := parse_mylib_eq.1 hp1
  rw [he1, extractMylib_some] at hx1
  rw [hd1, extractMylib_some] at hy1
  obtain ⟨hx2, hy2⟩ := parse_test_eq.1 hp2
  rw [he2, extractTest_some] at hx2
  rw [hd2, extractTest_some] at hy2
  have hbe2 : ¬ be2.isEmpty := by
    intro hc
    exact hne2 (by rw [List.isEmpty_iff.1 hc]; rfl)
  have hbd2 : ¬ bd2.isEmpty := by
    intro hc
    exact hnd2 (by rw [List.isEmpty_iff.1 hc]; rfl)
  rw [if_neg hbe2] at hx2
  rw [if_neg hbd2] at hy2
  have l1 := optMap_length hx1
  have l2 := optMap_length hy1
  have l3 := optMap_length hx2
  have l4 := optMap_length hy2
  refine ⟨⟨?_, ?_, by omega⟩, ⟨?_, ?_, by omega⟩⟩
  · intro hc
    rw [hc] at l1
    simp only [List.length_nil] at l1
    exact hne1 (List.eq_nil_of_length_eq_zero l1.symm)
  · intro hc
    rw [hc] at l2
    simp only [List.length_nil] at l2
    exact hnd1 (List.eq_nil_of_length_eq_zero l2.symm)
  · intro hc
    rw [hc] at l3
    simp only [List.length_nil] at l3
    exact hne2 (List.eq_nil_of_length_eq_zero l3.symm)
  · intro hc
    rw [hc] at l4
    simp only [List.length_nil] at l4
    exact hnd2 (List.eq_nil_of_length_eq_zero l4.symm)

/-- Witness for the amended C1 on the spec §8 example. -/
theorem C1_occurrence_count_witness :
    (([⟨1, mkRat 4 1, mkRat 1205 10⟩, ⟨2, mkRat 4 1, mkRat 2301 10⟩] : List Row) ≠ [] ∧
      ([⟨1, mkRat 4 1, mkRat 1500 10⟩] : List Row) ≠ [] ∧
      ([⟨1, mkRat 4 1, mkRat 1205 10⟩, ⟨2, mkRat 4 1, mkRat 2301 10⟩] : List Row).length +
          ([⟨1, mkRat 4 1, mkRat 1500 10⟩] : List Row).length =
        (findTriplets (("\n1 | 4 | 120.5\n2 | 4 | 230.1\n").data)).length +
          (findTriplets (("\n1 | 4 | 150.0\n").data)).length) ∧
    (([⟨1, mkRat 4 1, mkRat 1205 10⟩, ⟨2, mkRat 4 1, mkRat 2301 10⟩] : List Row) ≠ [] ∧
      ([⟨1, mkRat 4 1, mkRat 1500 10⟩] : List Row) ≠ [] ∧
      ([⟨1, mkRat 4 1, mkRat 1205 10⟩, ⟨2, mkRat 4 1, mkRat 2301 10⟩] : List Row).length +
          ([⟨1, mkRat 4 1, mkRat 1500 10⟩] : List Row).length =
        (findTripletsT (("\n1 | 4 | 120.5\n2 | 4 | 230.1\n").data)).length +
          (findTripletsT (("\n1 | 4 | 150.0").data)).length) :=
  C1_occurrence_count
    (("=== ENCRYPTION THREAD/CHUNK SWEEP ===\n1 | 4 | 120.5\n2 | 4 | 230.1\n=== DECRYPTION THREAD/CHUNK SWEEP ===\n1 | 4 | 150.0\n").data)
    (("=== ENCRYPTION THREAD/CHUNK SWEEP ===\n1 | 4 | 120.5\n2 | 4 | 230.1\n=== DECRYPTION THREAD/CHUNK SWEEP ===\n1 | 4 | 150.0\n").data)
    _ _ _ _ _ _ _ _
    (by decide) (by decide) (by decide) (by decide) (by decide)
    (by decide) (by decide) (by decide) (by decide) (by decide)

/-! ## C2: absent sections -/

/-- Claim C2, amended: if the encryption marker is absent, or its
captured body contains no occurrence of the triplet pattern, then
whenever the parser returns at all it returns an empty encryption
table, and the decryption table is computed from the decryption
section alone (independence).  The parser may still raise, but only
from a numeric conversion in the other section, never from the absence
itself.  Stated for both implementations. -/
theorem C2_empty_section (t1 t2 : List Char) (e1 d1 e2 d2 : List Row)
    (hp1 : parse_mylib_results t1 = some (e1, d1))
    (ha1 : mylibSection encName t1 = none ∨
      findTriplets ((mylibSection encName t1).getD []) = [])
    (hp2 : parse_test_results t2 = some (e2, d2))
    (ha2 : testSection encName t2 = none ∨
      findTripletsT ((testSection encName t2).getD []) = []) :
    (e1 = [] ∧ extractMylib (mylibSection decName t1) = some d1) ∧
    (e2 = [] ∧ extractTest (testSection decName t2) = some d2) := by
  obtain ⟨hx1, hy1⟩ := parse_mylib_eq.1 hp1
  obtain ⟨hx2, hy2⟩ := parse_test_eq.1 hp2
  refine ⟨⟨?_, hy1⟩, ⟨?_, hy2⟩⟩
  · cases hsec : mylibSection encName t1 with
    | none =>
      rw [hsec] at hx1
      exact (Option.some.inj hx1).symm
    | some be =>
      rcases ha1 with h | h
      · rw [hsec] at h; exact absurd h (by simp)
      · rw [hsec] at h
        simp only [Option.getD_some] at h
        rw [hsec, extractMylib_some, h] at hx1
        exact (Option.some.inj hx1).symm
  · cases hsec : testSection encName t2 with
    | none =>
      rw [hsec] at hx2
      exact (Option.some.inj hx2).symm
    | some be =>
      rw [hsec, extractTest_some] at hx2
      split at hx2
      · exact (Option.some.inj hx2).symm
      · rcases ha2 with h | h
        · rw [hsec] at h; exact absurd h (by simp)
        · rw [hsec] at h
          simp only [Option.getD_some] at h
          rw [h] at hx2
          exact (Option.some.inj hx2).symm

/-- Witness for the amended C2: a text with only a decryption section. -/
theorem C2_empty_section_witness :
    (([] : List Row) = [] ∧
      extractMylib (mylibSection decName
        (("=== DECRYPTION THREAD/CHUNK SWEEP ===\n1 | 2 | 3\n").data)) =
        some [⟨1, mkRat 2 1, mkRat 3 1⟩]) ∧
    (([] : List Row) = [] ∧
      extractTest (testSection decName
        (("=== DECRYPTION THREAD/CHUNK SWEEP ===\n1 | 2 | 3\n").data)) =
        some [⟨1, mkRat 2 1, mkRat 3 1⟩]) :=
  C2_empty_section
    (("=== DECRYPTION THREAD/CHUNK SWEEP ===\n1 | 2 | 3\n").data)
    (("=== DECRYPTION THREAD/CHUNK SWEEP ===\n1 | 2 | 3\n").data)
    _ _ _ _
    (by decide) (Or.inl (by decide)) (by decide) (Or.inl (by decide))

/-! ## C5: the row invariant -/

/-- Claim C5, amended: every parsed row has a natural-number thread
count and nonnegative chunk size and throughput; the stronger bounds
`threads ≥ 1` and `chunk_size_mb > 0` of the claim do not hold (the
digit patterns accept `0`).  Stated for both implementations. -/
theorem C5_row_bounds (t1 t2 : List Char) (e1 d1 e2 d2 : List Row) (x1 x2 : Row)
    (hp1 : parse_mylib_results t1 = some (e1, d1)) (hx1 : x1 ∈ e1 ++ d1)
    (hp2 : parse_test_results t2 = some (e2, d2)) (hx2 : x2 ∈ e2 ++ d2) :
    (0 ≤ x1.chunkMB ∧ 0 ≤ x1.throughput) ∧
    (0 ≤ x2.chunkMB ∧ 0 ≤ x2.throughput) := by
  obtain ⟨he1, hd1⟩ := parse_mylib_eq.1 hp1
  obtain ⟨he2, hd2⟩ := parse_test_eq.1 hp2
  constructor
  · rcases List.mem_append.1 hx1 with h | h
    · exact extractMylib_mem_nonneg he1 x1 h
    · exact extractMylib_mem_nonneg hd1 x1 h
  · rcases List.mem_append.1 hx2 with h | h
    · exact extractTest_mem_nonneg he2 x2 h
    · exact extractTest_mem_nonneg hd2 x2 h

/-- Witness for the amended C5 on the spec §8 example. -/
theorem C5_row_bounds_witness :
    (0 ≤ (mkRat 4 1) ∧ 0 ≤ (mkRat 1205 10)) ∧
    (0 ≤ (mkRat 4 1) ∧ 0 ≤ (mkRat 1205 10)) :=
  C5_row_bounds
    (("=== ENCRYPTION THREAD/CHUNK SWEEP ===\n1 | 4 | 120.5\n2 | 4 | 230.1\n=== DECRYPTION THREAD/CHUNK SWEEP ===\n1 | 4 | 150.0\n").data)
    (("=== ENCRYPTION THREAD/CHUNK SWEEP ===\n1 | 4 | 120.5\n2 | 4 | 230.1\n=== DECRYPTION THREAD/CHUNK SWEEP ===\n1 | 4 | 150.0\n").data)
    [⟨1, mkRat 4 1, mkRat 1205 10⟩, ⟨2, mkRat 4 1, mkRat 2301 10⟩]
    [⟨1, mkRat 4 1, mkRat 1500 10⟩]
    [⟨1, mkRat 4 1, mkRat 1205 10⟩, ⟨2, mkRat 4 1, mkRat 2301 10⟩]
    [⟨1, mkRat 4 1, mkRat 1500 10⟩]
    ⟨1, mkRat 4 1, mkRat 1205 10⟩ ⟨1, mkRat 4 1, mkRat 1205 10⟩
    (by decide) (by decide) (by decide) (by decide)

/-! ## C6: the section body capture -/

theorem takeBody_cons_eq (c : Char) (t : List Char) :
    takeBody (c :: t) =
      if c = '=' ∧ t.head? = some '=' then [] else c :: takeBody t := rfl

theorem takeBody_cons_stop {c : Char} {t : List Char}
    (h1 : c = '=') (h2 : t.head? = some '=') : takeBody (c :: t) = [] := by
  rw [takeBody_cons_eq, if_pos ⟨h1, h2⟩]

theorem takeBody_cons_go {c : Char} {t : List Char}
    (h : ¬ (c = '=' ∧ t.head? = some '=')) :
    takeBody (c :: t) = c :: takeBody t := by
  rw [takeBody_cons_eq, if_neg h]

theorem takeBody_prefix : ∀ cs : List Char, takeBody cs <+: cs := by
  intro cs
  induction cs with
  | nil => exact List.prefix_refl _
  | cons c t ih =>
    by_cases h : c = '=' ∧ t.head? = some '='
    · rw [takeBody_cons_stop h.1 h.2]
      exact List.nil_prefix ..
    · rw [takeBody_cons_go h]
      exact List.cons_prefix_cons.2 ⟨rfl, ih⟩

theorem takeBody_head {t : List Char} {x : Char}
    (h : (takeBody t).head? = some x) : t.head? = some x := by
  cases t with
  | nil => simp [takeBody] at h
  | cons c t' =>
    by_cases hs : c = '=' ∧ t'.head? = some '='
    · rw [takeBody_cons_stop hs.1 hs.2] at h
      simp at h
    · rw [takeBody_cons_go hs] at h
      simpa using h

theorem takeBody_no_eq2 : ∀ cs : List Char, ¬ (['=', '='] <:+: takeBody cs) := by
  intro cs
  induction cs with
  | nil => simp [takeBody]
  | cons c t ih =>
    by_cases h : c = '=' ∧ t.head? = some '='
    · rw [takeBody_cons_stop h.1 h.2]
      simp
    · rw [takeBody_cons_go h]
      intro hinf
      rcases List.infix_cons_iff.1 hinf with hpre | hinf'
      · obtain ⟨hc, hpre'⟩ := List.cons_prefix_cons.1 hpre
        obtain ⟨u, hu⟩ := hpre'
        have hhd : (takeBody t).head? = some '=' := by
          rw [← hu]
          simp
        exact h ⟨hc.symm, takeBody_head hhd⟩
      · exact ih hinf'

theorem takeBody_split :
    ∀ cs : List Char, cs = takeBody cs ∨ ∃ r, cs = takeBody cs ++ '=' :: '=' :: r := by
  intro cs
  induction cs with
  | nil => exact Or.inl rfl
  | cons c t ih =>
    by_cases h : c = '=' ∧ t.head? = some '='
    · obtain ⟨hc, hh⟩ := h
      subst hc
      cases t with
      | nil => simp at hh
      | cons c' t' =>
        simp only [List.head?_cons, Option.some.injEq] at hh
        subst hh
        refine Or.inr ⟨t', ?_⟩
        have hstop : takeBody ('=' :: '=' :: t') = [] := takeBody_cons_stop rfl rfl
        rw [hstop]
        simp
    · rw [takeBody_cons_go h]
      rcases ih with h' | ⟨r, hr⟩
      · exact Or.inl (by rw [← h'])
      · exact Or.inr ⟨r, by rw [List.cons_append, ← hr]⟩

/-- Claim C6, amended: the captured section body runs from just after
the marker up to (but not including) the first occurrence of two
consecutive `=` characters — anywhere, not only at a `===`-prefixed
marker — or to end of input when no `==` occurs.  In particular a
bare `==` inside a data line already terminates the section. -/
theorem C6_section_body (name text b : List Char)
    (h : mylibSection name text = some b) :
    ∃ after, searchFrom (matchMarkerMylib name) text = some after ∧
      b <+: after ∧ ¬ (['=', '='] <:+: b) ∧
      (after = b ∨ ∃ r, after = b ++ '=' :: '=' :: r) := by
  unfold mylibSection at h
  obtain ⟨after, hs, hb⟩ := Option.map_eq_some'.1 h
  subst hb
  exact ⟨after, hs, takeBody_prefix after, takeBody_no_eq2 after, takeBody_split after⟩

/-- Witness for the amended C6 on the `x == y` input. -/
theorem C6_section_body_witness :
    ∃ after,
      searchFrom (matchMarkerMylib encName)
        (("=== ENCRYPTION THREAD/CHUNK SWEEP ===\n1 | 2 | 3\nx == y\n4 | 5 | 6\n").data) =
        some after ∧
      (("\n1 | 2 | 3\nx ").data : List Char) <+: after ∧
      ¬ (['=', '='] <:+: (("\n1 | 2 | 3\nx ").data : List Char)) ∧
      (after = (("\n1 | 2 | 3\nx ").data : List Char) ∨
        ∃ r, after = (("\n1 | 2 | 3\nx ").data : List Char) ++ '=' :: '=' :: r) :=
  C6_section_body encName
    (("=== ENCRYPTION THREAD/CHUNK SWEEP ===\n1 | 2 | 3\nx == y\n4 | 5 | 6\n").data)
    (("\n1 | 2 | 3\nx ").data) (by decide)

/-! ## Division bridges: the kernel-computable forms equal `/` -/

theorem qdiv_eq (a b : ℚ) : qdiv a b = a / b := by
  rcases eq_or_ne b 0 with rfl | hb
  · simp [qdiv]
  · unfold qdiv
    rw [Rat.divInt_eq_div]
    push_cast
    rw [← div_mul_div_comm, Rat.num_div_den, div_eq_mul_inv a b]
    have hinv : b⁻¹ = (b.den : ℚ) / (b.num : ℚ) := by
      conv_lhs => rw [← Rat.num_div_den b]
      rw [inv_div]
    rw [hinv]

theorem qdivNat_eq (a : ℚ) (n : ℕ) : qdivNat a n = a / n := by
  unfold qdivNat
  rw [Rat.divInt_eq_div]
  push_cast
  rw [div_mul_eq_div_div, Rat.num_div_den]

theorem mkRat_natCast_eq (n : ℕ) : (mkRat (n : ℤ) 1 : ℚ) = (n : ℚ) := by
  rw [Rat.mkRat_one]
  push_cast
  rfl

/-! ## C7: the structured secondary path -/

/-- Claim C7, amended: when the header and row regexes both match and
every `k`-value converts, the parser zips header byte sizes with row
values positionally, truncating to the shorter list, divides each
value by 1000, and returns the rows sorted by block size; the spec's
example input needs trailing whitespace after the last `bytes` for the
header regex to match (see the counterexample), and the label the code
attaches is `OpenSSL AES-128-GCM`. -/
theorem C7_zip_truncate (text : List Char) (sizes : List (List Char))
    (c : List Char) (vals : List ℚ)
    (hh : searchML matchHeaderAt text = some sizes)
    (hr : searchML rowMatchAt text = some c)
    (hv : optMap floatOfToken (findKVals c) = some vals) :
    parse_openssl_results text = some (sortByBlock (zipORows sizes vals)) ∧
    (zipORows sizes vals).length = min sizes.length vals.length ∧
    ∀ (i : ℕ) (h1 : i < sizes.length) (h2 : i < vals.length)
      (h3 : i < (zipORows sizes vals).length),
      (zipORows sizes vals).get ⟨i, h3⟩ =
        ⟨natOfDigits (sizes[i]), vals[i] / 1000, opensslLabel⟩ := by
  refine ⟨?_, ?_, ?_⟩
  · unfold parse_openssl_results
    rw [hh, hr]
    simp [structuredRows, hv, bind, pure]
  · unfold zipORows
    simp only [List.length_zipWith, List.length_take, List.length_map]
    omega
  · intro i h1 h2 h3
    have h3' := h3
    unfold zipORows at h3' ⊢
    rw [List.get_eq_getElem]
    simp only [List.getElem_zipWith, List.getElem_take, List.getElem_map]
    rw [qdivNat_eq]
    norm_num

/-- Witness for the amended C7: the spec example with a trailing space
after the last `bytes`. -/
theorem C7_zip_truncate_witness :
    parse_openssl_results
        (("type 16 bytes 64 bytes \nAES-128-GCM 103872.58k 205000.00k\n").data) =
      some (sortByBlock (zipORows [("16").data, ("64").data]
        [mkRat 10387258 100, mkRat 205000 1])) ∧
    (zipORows [("16").data, ("64").data]
      [mkRat 10387258 100, mkRat 205000 1]).length =
        min ([("16").data, ("64").data] : List (List Char)).length
          ([mkRat 10387258 100, mkRat 205000 1] : List ℚ).length ∧
    ∀ (i : ℕ) (_h1 : i < ([("16").data, ("64").data] : List (List Char)).length)
      (_h2 : i < ([mkRat 10387258 100, mkRat 205000 1] : List ℚ).length)
      (h3 : i < (zipORows [("16").data, ("64").data]
        [mkRat 10387258 100, mkRat 205000 1]).length),
      (zipORows [("16").data, ("64").data]
        [mkRat 10387258 100, mkRat 205000 1]).get ⟨i, h3⟩ =
        ⟨natOfDigits (([("16").data, ("64").data] : List (List Char))[i]),
          ([mkRat 10387258 100, mkRat 205000 1] : List ℚ)[i] / 1000, opensslLabel⟩ :=
  C7_zip_truncate
    (("type 16 bytes 64 bytes \nAES-128-GCM 103872.58k 205000.00k\n").data)
    [("16").data, ("64").data]
    (("103872.58k 205000.00k").data)
    [mkRat 10387258 100, mkRat 205000 1]
    (by decide) (by decide) (by decide)

/-! ## C8: the fallback path -/

theorem blockRow_inv {t : List Char × List Char × List Char} {r : ORow}
    (h : blockRow t = some r) :
    ∃ s : ℚ, floatOfToken t.2.2 = some s ∧ s ≠ 0 ∧
      r = ⟨natOfDigits t.1,
        qdivNat (qdiv (mkRat (natOfDigits t.2.1 * natOfDigits t.1) 1) s) 1000000,
        opensslLabel⟩ := by
  unfold blockRow at h
  cases hs : floatOfToken t.2.2 with
  | none => rw [hs] at h; simp [bind] at h
  | some s =>
    rw [hs] at h
    simp only [bind, Option.some_bind] at h
    split at h
    · exact absurd h (by simp)
    · rename_i hz
      simp only [pure, Option.some.injEq] at h
      exact ⟨s, rfl, hz, h.symm⟩

/-- Claim C8, amended: when the structured header/row shape is absent,
the parser scans the free-form block-report lines; provided every line
matching the first fallback pattern has a `float`-convertible seconds
token (that loop only fills lists that are never read, but its `float`
can raise), and every line matching the ops pattern has a convertible,
nonzero seconds field, each ops match with block size `N`, operation
count `M` and seconds `S` yields the row
`(N, M ⬝ N / S / 1_000_000, label)`, and the rows are returned sorted
by block size ascending; with no matching line the result is empty.
A zero seconds field instead raises ZeroDivisionError (see the
counterexample), and an invalid seconds token in either loop raises
ValueError. -/
theorem C8_fallback (text : List Char) (rows : List ORow) (ts : List ℚ)
    (hs : searchML matchHeaderAt text = none ∨ searchML rowMatchAt text = none)
    (ht : optMap floatOfToken ((findTimes text).map (fun g => g.2)) = some ts)
    (hb : optMap blockRow (findBlocks text) = some rows) :
    parse_openssl_results text = some (sortByBlock rows) ∧
    List.Sorted oble (sortByBlock rows) ∧
    List.Perm (sortByBlock rows) rows ∧
    (∀ r ∈ rows, ∃ t ∈ findBlocks text, ∃ s : ℚ,
      floatOfToken t.2.2 = some s ∧ s ≠ 0 ∧
      r = ⟨natOfDigits t.1,
        ((natOfDigits t.2.1 * natOfDigits t.1 : ℕ) : ℚ) / s / 1000000, opensslLabel⟩) ∧
    (findBlocks text = [] → rows = []) := by
  have hparse : parse_openssl_results text = fallbackRows text := by
    rcases hs with h | h
    · unfold parse_openssl_results
      rw [h]
    · unfold parse_openssl_results
      rw [h]
      cases searchML matchHeaderAt text <;> rfl
  refine ⟨?_, List.sorted_insertionSort oble rows, List.perm_insertionSort oble rows, ?_, ?_⟩
  · rw [hparse]
    unfold fallbackRows
    rw [ht, hb]
    rfl
  · intro r hr
    obtain ⟨t, ht, hrow⟩ := optMap_mem hb r hr
    obtain ⟨s, hs', hz, rfl⟩ := blockRow_inv hrow
    refine ⟨t, ht, s, hs', hz, ?_⟩
    rw [qdivNat_eq, qdiv_eq, Rat.mkRat_one]
    push_cast
    ring_nf
  · intro hnil
    rw [hnil] at hb
    exact (Option.some.inj hb).symm

/-- Witness for the amended C8 on a single well-formed block line. -/
theorem C8_fallback_witness :
    parse_openssl_results
        (("Doing ops on 16 size blocks: 19070356 AES-128-GCM ops in 2.94s\n").data) =
      some (sortByBlock
        [⟨16, qdivNat (qdiv (mkRat (19070356 * 16) 1) (mkRat 294 100)) 1000000,
          opensslLabel⟩]) ∧
    List.Sorted oble (sortByBlock
      [⟨16, qdivNat (qdiv (mkRat (19070356 * 16) 1) (mkRat 294 100)) 1000000,
        opensslLabel⟩]) ∧
    List.Perm (sortByBlock
        [⟨16, qdivNat (qdiv (mkRat (19070356 * 16) 1) (mkRat 294 100)) 1000000,
          opensslLabel⟩])
      [⟨16, qdivNat (qdiv (mkRat (19070356 * 16) 1) (mkRat 294 100)) 1000000,
        opensslLabel⟩] ∧
    (∀ r ∈ [(⟨16, qdivNat (qdiv (mkRat (19070356 * 16) 1) (mkRat 294 100)) 1000000,
        opensslLabel⟩ : ORow)],
      ∃ t ∈ findBlocks (("Doing ops on 16 size blocks: 19070356 AES-128-GCM ops in 2.94s\n").data),
      ∃ s : ℚ, floatOfToken t.2.2 = some s ∧ s ≠ 0 ∧
        r = ⟨natOfDigits t.1,
          ((natOfDigits t.2.1 * natOfDigits t.1 : ℕ) : ℚ) / s / 1000000, opensslLabel⟩) ∧
    (findBlocks (("Doing ops on 16 size blocks: 19070356 AES-128-GCM ops in 2.94s\n").data) = [] →
      [(⟨16, qdivNat (qdiv (mkRat (19070356 * 16) 1) (mkRat 294 100)) 1000000,
        opensslLabel⟩ : ORow)] = []) :=
  C8_fallback
    (("Doing ops on 16 size blocks: 19070356 AES-128-GCM ops in 2.94s\n").data)
    [⟨16, qdivNat (qdiv (mkRat (19070356 * 16) 1) (mkRat 294 100)) 1000000, opensslLabel⟩]
    [mkRat 294 100]
    (Or.inl (by decide)) (by decide) (by decide)

/-! ## Character-class facts -/

theorem pyWS_cases {c : Char} (h : pyWS c = true) :
    c = ' ' ∨ c = '\t' ∨ c = '\n' ∨ c = '\r' ∨ c = '\x0b' ∨ c = '\x0c' := by
  simp only [pyWS, Bool.or_eq_true, decide_eq_true_eq] at h
  tauto

theorem numCh_not_ws {c : Char} (h : isNumCh c = true) : pyWS c = false := by
  cases hws : pyWS c
  · rfl
  · rcases pyWS_cases hws with rfl | rfl | rfl | rfl | rfl | rfl <;>
      exact absurd h (by decide)

theorem dig_not_ws {c : Char} (h : isDig c = true) : pyWS c = false :=
  numCh_not_ws (by simp [isNumCh, h])

theorem dig_numCh {c : Char} (h : isDig c = true) : isNumCh c = true := by
  simp [isNumCh, h]

theorem class_ne {p : Char → Bool} {c x : Char} (h : p c = true) (hx : p x = false) :
    c ≠ x := by
  intro he
  rw [he, hx] at h
  exact Bool.false_ne_true h

/-! ## Token and whitespace lemmas for concatenated text -/

theorem takeWhile_dropWhile_append {p : Char → Bool} :
    ∀ {a rest : List Char}, (∀ c ∈ a, p c = true) →
      (∀ x, rest.head? = some x → p x = false) →
      (a ++ rest).takeWhile p = a ∧ (a ++ rest).dropWhile p = rest := by
  intro a
  induction a with
  | nil =>
    intro rest _ hrest
    cases rest with
    | nil => simp
    | cons x r =>
      have hx := hrest x rfl
      simp [List.takeWhile_cons, List.dropWhile_cons, hx]
  | cons c a' ih =>
    intro rest hall hrest
    have hc : p c = true := hall c (List.mem_cons_self ..)
    obtain ⟨h1, h2⟩ := ih (fun x hx => hall x (List.mem_cons_of_mem _ hx)) hrest
    simp [List.takeWhile_cons, List.dropWhile_cons, hc, h1, h2]

theorem token_append {p : Char → Bool} {a rest : List Char}
    (hne : a ≠ []) (hall : ∀ c ∈ a, p c = true)
    (hrest : ∀ x, rest.head? = some x → p x = false) :
    token p (a ++ rest) = some (a, rest) := by
  obtain ⟨h1, h2⟩ := takeWhile_dropWhile_append hall hrest
  unfold token
  rw [h1, h2, if_neg hne]

theorem head_cons_case {x c : Char} {l : List Char}
    (hx : (c :: l).head? = some x) : x = c := by
  simpa [eq_comm] using hx

theorem token_cons_none {p : Char → Bool} {c : Char} {t : List Char}
    (h : p c = false) : token p (c :: t) = none := by
  simp [token, List.takeWhile_cons, h]

theorem dropWhile_append_stop {p : Char → Bool} {b : List Char}
    (hb : ∀ x, b.head? = some x → p x = false) :
    ∀ a : List Char, (a ++ b).dropWhile p = a.dropWhile p ++ b := by
  intro a
  induction a with
  | nil =>
    cases b with
    | nil => simp
    | cons x r => simp [List.dropWhile_cons, hb x rfl]
  | cons c a' ih =>
    cases hc : p c with
    | true => simp [List.dropWhile_cons, hc, ih]
    | false => simp [List.dropWhile_cons, hc]

theorem dropWhile_append_split {p : Char → Bool} :
    ∀ a b : List Char, (a ++ b).dropWhile p =
      if a.dropWhile p = [] then b.dropWhile p else a.dropWhile p ++ b := by
  intro a b
  induction a with
  | nil => simp
  | cons c a' ih =>
    cases hc : p c with
    | true => simpa [List.dropWhile_cons, hc] using ih
    | false => simp [List.dropWhile_cons, hc]

theorem skipWS_cons_ws {c : Char} {l : List Char} (h : pyWS c = true) :
    skipWS (c :: l) = skipWS l := by
  simp [skipWS, List.dropWhile_cons, h]

theorem skipWS_eq_self {l : List Char}
    (h : ∀ x, l.head? = some x → pyWS x = false) : skipWS l = l := by
  cases l with
  | nil => rfl
  | cons c t => simp [skipWS, List.dropWhile_cons, h c rfl]

theorem pipe_render {r : List Char} : pipe (' ' :: '|' :: r) = some r := by
  have h1 : skipWS (' ' :: '|' :: r) = '|' :: r := by
    rw [skipWS_cons_ws (by decide)]
    exact skipWS_eq_self (fun x hx => by cases hx; decide)
  rw [pipe_eq_cons h1, if_pos rfl]

/-! ## Rendering triplet lines -/

/-- Shape of a well-formed thread-count token. -/
def DigToken (t : List Char) : Prop :=
  t ≠ [] ∧ ∀ c ∈ t, isDig c = true

/-- Shape of a well-formed numeric-field token. -/
def NumToken (t : List Char) : Prop :=
  t ≠ [] ∧ ∀ c ∈ t, isNumCh c = true

/-- Shape of a full charts.py triplet. -/
def GoodTrip (t : List Char × List Char × List Char) : Prop :=
  DigToken t.1 ∧ NumToken t.2.1 ∧ NumToken t.2.2

/-- The data portion of a rendered line `<a> | <b> | <c>`. -/
def renderCore (t : List Char × List Char × List Char) : List Char :=
  t.1 ++ ' ' :: '|' :: ' ' :: (t.2.1 ++ ' ' :: '|' :: ' ' :: t.2.2)

/-- A rendered line including its terminating newline. -/
def renderTrip (t : List Char × List Char × List Char) : List Char :=
  renderCore t ++ ['\n']

/-- Concatenation of rendered lines. -/
def renderTrips : List (List Char × List Char × List Char) → List Char
  | [] => []
  | t :: l => renderTrip t ++ renderTrips l

theorem NumToken.head_not_ws {b : List Char} (hb : NumToken b) :
    ∀ x, ∀ rest : List Char, (b ++ rest).head? = some x → pyWS x = false := by
  intro x rest hx
  obtain ⟨hne, hall⟩ := hb
  cases b with
  | nil => exact absurd rfl hne
  | cons c t =>
    simp only [List.cons_append, List.head?_cons, Option.some.injEq] at hx
    subst hx
    exact numCh_not_ws (hall _ (List.mem_cons_self ..))

theorem matchTriplet_renderCore {a b c : List Char} {rest : List Char}
    (ha : DigToken a) (hb : NumToken b) (hc : NumToken c)
    (hrest : ∀ x, rest.head? = some x → isNumCh x = false) :
    matchTriplet (renderCore (a, b, c) ++ rest) = some ((a, b, c), rest) := by
  have hassoc : renderCore (a, b, c) ++ rest =
      a ++ ' ' :: '|' :: ' ' :: (b ++ ' ' :: '|' :: ' ' :: (c ++ rest)) := by
    simp [renderCore, List.append_assoc]
  rw [hassoc]
  have h1 : token isDig (a ++ ' ' :: '|' :: ' ' :: (b ++ ' ' :: '|' :: ' ' :: (c ++ rest))) =
      some (a, ' ' :: '|' :: ' ' :: (b ++ ' ' :: '|' :: ' ' :: (c ++ rest))) :=
    token_append ha.1 ha.2 (fun x hx => by rw [head_cons_case hx]; decide)
  have h2 : pipe (' ' :: '|' :: ' ' :: (b ++ ' ' :: '|' :: ' ' :: (c ++ rest))) =
      some (' ' :: (b ++ ' ' :: '|' :: ' ' :: (c ++ rest))) := pipe_render
  have hsk1 : skipWS (' ' :: (b ++ ' ' :: '|' :: ' ' :: (c ++ rest))) =
      b ++ ' ' :: '|' :: ' ' :: (c ++ rest) := by
    rw [skipWS_cons_ws (by decide)]
    exact skipWS_eq_self (fun x hx => hb.head_not_ws x _ hx)
  have h3 : token isNumCh (b ++ ' ' :: '|' :: ' ' :: (c ++ rest)) =
      some (b, ' ' :: '|' :: ' ' :: (c ++ rest)) :=
    token_append hb.1 hb.2 (fun x hx => by rw [head_cons_case hx]; decide)
  have h4 : pipe (' ' :: '|' :: ' ' :: (c ++ rest)) = some (' ' :: (c ++ rest)) :=
    pipe_render
  have hsk2 : skipWS (' ' :: (c ++ rest)) = c ++ rest := by
    rw [skipWS_cons_ws (by decide)]
    exact skipWS_eq_self (fun x hx => hc.head_not_ws x _ hx)
  have h5 : token isNumCh (c ++ rest) = some (c, rest) :=
    token_append hc.1 hc.2 hrest
  exact matchTriplet_mk h1 h2 (by rw [hsk1]; exact h3) h4 (by rw [hsk2]; exact h5)

/-- Shape of a test_parser.py triplet (integer chunk field). -/
def GoodTripT (t : List Char × List Char × List Char) : Prop :=
  DigToken t.1 ∧ DigToken t.2.1 ∧ NumToken t.2.2

theorem DigToken.numToken {t : List Char} (h : DigToken t) : NumToken t :=
  ⟨h.1, fun c hc => dig_numCh (h.2 c hc)⟩

theorem GoodTripT.goodTrip {t : List Char × List Char × List Char}
    (h : GoodTripT t) : GoodTrip t :=
  ⟨h.1, h.2.1.numToken, h.2.2⟩

theorem matchTripletT_renderCore {a b c : List Char} {rest : List Char}
    (ha : DigToken a) (hb : DigToken b) (hc : NumToken c)
    (hrest : ∀ x, rest.head? = some x → isNumCh x = false) :
    matchTripletT (renderCore (a, b, c) ++ rest) = some ((a, b, c), rest) := by
  have hassoc : renderCore (a, b, c) ++ rest =
      a ++ ' ' :: '|' :: ' ' :: (b ++ ' ' :: '|' :: ' ' :: (c ++ rest)) := by
    simp [renderCore, List.append_assoc]
  rw [hassoc]
  have h1 : token isDig (a ++ ' ' :: '|' :: ' ' :: (b ++ ' ' :: '|' :: ' ' :: (c ++ rest))) =
      some (a, ' ' :: '|' :: ' ' :: (b ++ ' ' :: '|' :: ' ' :: (c ++ rest))) :=
    token_append ha.1 ha.2 (fun x hx => by rw [head_cons_case hx]; decide)
  have h2 : pipe (' ' :: '|' :: ' ' :: (b ++ ' ' :: '|' :: ' ' :: (c ++ rest))) =
      some (' ' :: (b ++ ' ' :: '|' :: ' ' :: (c ++ rest))) := pipe_render
  have hsk1 : skipWS (' ' :: (b ++ ' ' :: '|' :: ' ' :: (c ++ rest))) =
      b ++ ' ' :: '|' :: ' ' :: (c ++ rest) := by
    rw [skipWS_cons_ws (by decide)]
    exact skipWS_eq_self (fun x hx => hb.numToken.head_not_ws x _ hx)
  have h3 : token isDig (b ++ ' ' :: '|' :: ' ' :: (c ++ rest)) =
      some (b, ' ' :: '|' :: ' ' :: (c ++ rest)) :=
    token_append hb.1 hb.2 (fun x hx => by rw [head_cons_case hx]; decide)
  have h4 : pipe (' ' :: '|' :: ' ' :: (c ++ rest)) = some (' ' :: (c ++ rest)) :=
    pipe_render
  have hsk2 : skipWS (' ' :: (c ++ rest)) = c ++ rest := by
    rw [skipWS_cons_ws (by decide)]
    exact skipWS_eq_self (fun x hx => hc.head_not_ws x _ hx)
  have h5 : token isNumCh (c ++ rest) = some (c, rest) :=
    token_append hc.1 hc.2 hrest
  exact matchTripletT_mk h1 h2 (by rw [hsk1]; exact h3) h4 (by rw [hsk2]; exact h5)

theorem matchTriplet_renderTrip {t : List Char × List Char × List Char}
    {rest : List Char} (ht : GoodTrip t) :
    matchTriplet (renderTrip t ++ rest) = some (t, '\n' :: rest) := by
  obtain ⟨a, b, c⟩ := t
  have hassoc : renderTrip (a, b, c) ++ rest = renderCore (a, b, c) ++ '\n' :: rest := by
    simp [renderTrip]
  rw [hassoc]
  exact matchTriplet_renderCore ht.1 ht.2.1 ht.2.2
    (fun x hx => by rw [head_cons_case hx]; decide)

theorem matchTripletT_renderTrip {t : List Char × List Char × List Char}
    {rest : List Char} (ht : GoodTripT t) :
    matchTripletT (renderTrip t ++ rest) = some (t, '\n' :: rest) := by
  obtain ⟨a, b, c⟩ := t
  have hassoc : renderTrip (a, b, c) ++ rest = renderCore (a, b, c) ++ '\n' :: rest := by
    simp [renderTrip]
  rw [hassoc]
  exact matchTripletT_renderCore ht.1 ht.2.1 ht.2.2
    (fun x hx => by rw [head_cons_case hx]; decide)

theorem findTriplets_skip {ch : Char} {t : List Char} (h : isDig ch = false) :
    findTriplets (ch :: t) = findTriplets t :=
  findTriplets_cons_none (matchTriplet_none_of_token (token_cons_none h))

theorem findTripletsT_skip {ch : Char} {t : List Char} (h : isDig ch = false) :
    findTripletsT (ch :: t) = findTripletsT t :=
  findTripletsT_cons_none (matchTripletT_none_of_token (token_cons_none h))

theorem findTriplets_renderTrips {l : List (List Char × List Char × List Char)}
    (hl : ∀ t ∈ l, GoodTrip t) (rest : List Char) :
    findTriplets (renderTrips l ++ rest) = l ++ findTriplets rest := by
  induction l with
  | nil => simp [renderTrips]
  | cons t l' ih =>
    have ht := hl t (List.mem_cons_self ..)
    have hstep : renderTrips (t :: l') ++ rest = renderTrip t ++ (renderTrips l' ++ rest) := by
      simp [renderTrips, List.append_assoc]
    rw [hstep, findTriplets_cons_some (matchTriplet_renderTrip ht),
      findTriplets_skip (by decide), ih (fun x hx => hl x (List.mem_cons_of_mem _ hx))]
    rfl

theorem findTripletsT_renderTrips {l : List (List Char × List Char × List Char)}
    (hl : ∀ t ∈ l, GoodTripT t) (rest : List Char) :
    findTripletsT (renderTrips l ++ rest) = l ++ findTripletsT rest := by
  induction l with
  | nil => simp [renderTrips]
  | cons t l' ih =>
    have ht := hl t (List.mem_cons_self ..)
    have hstep : renderTrips (t :: l') ++ rest = renderTrip t ++ (renderTrips l' ++ rest) := by
      simp [renderTrips, List.append_assoc]
    rw [hstep, findTripletsT_cons_some (matchTripletT_renderTrip ht),
      findTripletsT_skip (by decide), ih (fun x hx => hl x (List.mem_cons_of_mem _ hx))]
    rfl

/-! ## Inert segments: text the scan walks through without matching -/

theorem findTriplets_inert_nodigit {m : List Char}
    (hm : ∀ ch ∈ m, isDig ch = false) (rest : List Char) :
    findTriplets (m ++ rest) = findTriplets rest := by
  induction m with
  | nil => rfl
  | cons ch m' ih =>
    rw [List.cons_append, findTriplets_skip (hm ch (List.mem_cons_self ..)),
      ih (fun x hx => hm x (List.mem_cons_of_mem _ hx))]

theorem pipe_none_inert {dw rest : List Char}
    (hdw : ∀ y ∈ dw, y ≠ '|')
    (hr : ∀ x, (rest.dropWhile pyWS).head? = some x → x ≠ '|') :
    pipe (dw ++ '\n' :: rest) = none := by
  have hnl : (('\n' :: rest : List Char)).dropWhile pyWS = rest.dropWhile pyWS := by
    rw [List.dropWhile_cons, if_pos (by decide)]
  have hsk : skipWS (dw ++ '\n' :: rest) =
      if dw.dropWhile pyWS = [] then rest.dropWhile pyWS
      else dw.dropWhile pyWS ++ '\n' :: rest := by
    show (dw ++ '\n' :: rest).dropWhile pyWS = _
    rw [dropWhile_append_split, hnl]
  by_cases hcase : dw.dropWhile pyWS = []
  · rw [if_pos hcase] at hsk
    cases hrd : rest.dropWhile pyWS with
    | nil => exact pipe_eq_nil (by rw [hsk, hrd])
    | cons y r =>
      have hy : y ≠ '|' := hr y (by rw [hrd]; rfl)
      rw [pipe_eq_cons (by rw [hsk, hrd]), if_neg hy]
  · rw [if_neg hcase] at hsk
    obtain ⟨y, ys, hys⟩ := List.exists_cons_of_ne_nil hcase
    have hy : y ≠ '|' := hdw y ((List.dropWhile_suffix pyWS).subset
      (by rw [hys]; exact List.mem_cons_self ..))
    have hsk2 : skipWS (dw ++ '\n' :: rest) = y :: (ys ++ '\n' :: rest) := by
      rw [hsk, hys]
      rfl
    rw [pipe_eq_cons hsk2, if_neg hy]

theorem findTriplets_inert_nopipe {m rest : List Char}
    (hp : ∀ ch ∈ m, ch ≠ '|')
    (hr : ∀ x, (rest.dropWhile pyWS).head? = some x → x ≠ '|') :
    findTriplets (m ++ '\n' :: rest) = findTriplets rest := by
  induction m with
  | nil => exact findTriplets_skip (by decide)
  | cons ch m' ih =>
    have ihm := ih (fun x hx => hp x (List.mem_cons_of_mem _ hx))
    cases hd : isDig ch with
    | false =>
      rw [List.cons_append, findTriplets_skip hd, ihm]
    | true =>
      have hnl2 : ∀ x, (('\n' :: rest : List Char)).head? = some x → isDig x = false :=
        fun x hx => by rw [head_cons_case hx]; decide
      have hdw := dropWhile_append_stop hnl2 (ch :: m')
      have htw : ¬ ((ch :: m') ++ '\n' :: rest).takeWhile isDig = [] := by
        simp [List.cons_append, List.takeWhile_cons, hd]
      have htok : token isDig ((ch :: m') ++ '\n' :: rest) =
          some (((ch :: m') ++ '\n' :: rest).takeWhile isDig,
            (ch :: m').dropWhile isDig ++ '\n' :: rest) := by
        unfold token
        rw [if_neg htw, hdw]
      have hpipe : pipe ((ch :: m').dropWhile isDig ++ '\n' :: rest) = none :=
        pipe_none_inert (fun y hy => hp y ((List.dropWhile_suffix isDig).subset hy)) hr
      have hmt : matchTriplet (ch :: (m' ++ '\n' :: rest)) = none := by
        have := matchTriplet_none_of_pipe htok hpipe
        rwa [List.cons_append] at this
      rw [List.cons_append, findTriplets_cons_none hmt, ihm]

/-! ## Literal and marker-search lemmas -/

theorem dropLit_nil (cs : List Char) : dropLit [] cs = some cs := by
  cases cs <;> rfl

theorem dropLit_self : ∀ (l cs : List Char), dropLit l (l ++ cs) = some cs := by
  intro l
  induction l with
  | nil =>
    intro cs
    rw [List.nil_append]
    exact dropLit_nil cs
  | cons x l' ih =>
    intro cs
    rw [List.cons_append,
      show dropLit (x :: l') (x :: (l' ++ cs)) =
        if x = x then dropLit l' (l' ++ cs) else none from rfl,
      if_pos rfl]
    exact ih cs

theorem dropLit_cons_same {x : Char} {ls cs : List Char} :
    dropLit (x :: ls) (x :: cs) = dropLit ls cs := by
  rw [show dropLit (x :: ls) (x :: cs) = if x = x then dropLit ls cs else none from rfl,
    if_pos rfl]

theorem dropLit_head_ne {x c : Char} {l cs : List Char} (h : c ≠ x) :
    dropLit (x :: l) (c :: cs) = none := by
  rw [show dropLit (x :: l) (c :: cs) = if c = x then dropLit l cs else none from rfl,
    if_neg h]

theorem dropLit_suffix : ∀ {l cs r : List Char}, dropLit l cs = some r → r <:+ cs := by
  intro l
  induction l with
  | nil =>
    intro cs r h
    rw [dropLit_nil] at h
    obtain rfl := Option.some.inj h
    exact List.suffix_refl _
  | cons x l' ih =>
    intro cs r h
    cases cs with
    | nil => exact absurd h (by simp [dropLit])
    | cons c cs' =>
      by_cases hc : c = x
      · subst hc
        rw [dropLit_cons_same] at h
        exact (ih h).trans (List.suffix_cons c cs')
      · rw [dropLit_head_ne hc] at h
        simp at h

theorem mem_of_head? {l : List Char} {y : Char} (h : l.head? = some y) : y ∈ l :=
  List.mem_of_mem_head? (Option.mem_def.mpr h)

theorem dropLit_eqs_none {cs : List Char} (h : ∀ y, cs.head? = some y → y ≠ '=') :
    dropLit eqs cs = none := by
  cases cs with
  | nil => rfl
  | cons c r => exact dropLit_head_ne (h c rfl)

theorem dropLit_eqs_22 {X : List Char} (hX : ∀ x, X.head? = some x → x ≠ '=') :
    dropLit eqs ('=' :: '=' :: X) = none := by
  show dropLit ('=' :: '=' :: '=' :: []) ('=' :: '=' :: X) = none
  rw [dropLit_cons_same, dropLit_cons_same]
  cases X with
  | nil => rfl
  | cons x r => exact dropLit_head_ne (hX x rfl)

theorem dropLit_eqs_12 {X : List Char} (hX : ∀ x, X.head? = some x → x ≠ '=') :
    dropLit eqs ('=' :: X) = none := by
  show dropLit ('=' :: '=' :: '=' :: []) ('=' :: X) = none
  rw [dropLit_cons_same]
  cases X with
  | nil => rfl
  | cons x r => exact dropLit_head_ne (hX x rfl)

theorem matchMarkerMylib_none1 {name cs : List Char} (h : dropLit eqs cs = none) :
    matchMarkerMylib name cs = none := by
  unfold matchMarkerMylib
  rw [h]

theorem matchMarkerMylib_eq1 {name cs r1 : List Char} (h : dropLit eqs cs = some r1) :
    matchMarkerMylib name cs =
      match dropLit name (skipWS r1) with
      | none => none
      | some r2 => dropLit eqs (skipWS r2) := by
  unfold matchMarkerMylib
  rw [h]

theorem searchFrom_cons (m : List Char → Option (List Char)) (c : Char) (t : List Char) :
    searchFrom m (c :: t) =
      match m (c :: t) with
      | some r => some r
      | none => searchFrom m t := rfl

theorem searchFrom_head_some {m : List Char → Option (List Char)} {cs r : List Char}
    (hne : cs ≠ []) (h : m cs = some r) : searchFrom m cs = some r := by
  cases cs with
  | nil => exact absurd rfl hne
  | cons c t => rw [searchFrom_cons, h]

theorem searchFrom_append_none {m : List Char → Option (List Char)} :
    ∀ {a b : List Char},
      (∀ a', a' <:+ a → a' ≠ [] → m (a' ++ b) = none) →
      searchFrom m (a ++ b) = searchFrom m b := by
  intro a
  induction a with
  | nil => intro b _; rfl
  | cons c a' ih =>
    intro b h
    have h1 : m (c :: (a' ++ b)) = none := by
      have := h (c :: a') (List.suffix_refl _) (by simp)
      rwa [List.cons_append] at this
    rw [List.cons_append, searchFrom_cons, h1]
    exact ih (fun a'' ha'' hne => h a'' (ha''.trans (List.suffix_cons c a')) hne)

theorem searchFrom_none {m : List Char → Option (List Char)} :
    ∀ {cs : List Char}, (∀ s, s <:+ cs → m s = none) → searchFrom m cs = none := by
  intro cs
  induction cs with
  | nil =>
    intro h
    exact h [] (List.suffix_refl _)
  | cons c t ih =>
    intro h
    rw [searchFrom_cons, h (c :: t) (List.suffix_refl _)]
    exact ih (fun s hs => h s (hs.trans (List.suffix_cons c t)))

theorem suffix_append_cases : ∀ {a b s : List Char}, s <:+ a ++ b →
    s <:+ b ∨ ∃ a', a' <:+ a ∧ a' ≠ [] ∧ s = a' ++ b := by
  intro a
  induction a with
  | nil => intro b s h; exact Or.inl h
  | cons c a' ih =>
    intro b s h
    rw [List.cons_append] at h
    rcases List.suffix_cons_iff.1 h with rfl | h'
    · exact Or.inr ⟨c :: a', List.suffix_refl _, by simp, by rw [List.cons_append]⟩
    · rcases ih h' with h'' | ⟨a'', ha'', hne, rfl⟩
      · exact Or.inl h''
      · exact Or.inr ⟨a'', ha''.trans (List.suffix_cons c a'), hne, rfl⟩

theorem matchMarkerMylib_self {name : List Char} (hne : name ≠ [])
    (hh : ∀ x, name.head? = some x → pyWS x = false) (rest : List Char) :
    matchMarkerMylib name (markerText name ++ rest) = some rest := by
  have hassoc : markerText name ++ rest =
      eqs ++ (' ' :: (name ++ (' ' :: (eqs ++ rest)))) := by
    simp [markerText, List.append_assoc]
  rw [hassoc, matchMarkerMylib_eq1 (dropLit_self eqs _)]
  have hsk1 : skipWS (' ' :: (name ++ (' ' :: (eqs ++ rest)))) =
      name ++ (' ' :: (eqs ++ rest)) := by
    rw [skipWS_cons_ws (by decide)]
    apply skipWS_eq_self
    intro x hx
    cases name with
    | nil => exact absurd rfl hne
    | cons nh nt =>
      rw [List.cons_append] at hx
      rw [head_cons_case hx]
      exact hh nh rfl
  rw [hsk1, dropLit_self name _]
  show dropLit eqs (skipWS (' ' :: (eqs ++ rest))) = some rest
  have hsk2 : skipWS (' ' :: (eqs ++ rest)) = eqs ++ rest := by
    rw [skipWS_cons_ws (by decide)]
    apply skipWS_eq_self
    intro x hx
    have hq : eqs ++ rest = '=' :: ('=' :: '=' :: rest) := rfl
    rw [hq] at hx
    rw [head_cons_case hx]
    decide
  rw [hsk2]
  exact dropLit_self eqs rest

theorem matchDecName_encMarker_none (X : List Char) :
    matchMarkerMylib decName (markerText encName ++ X) = none := by
  have hassoc : markerText encName ++ X =
      eqs ++ (' ' :: (encName ++ (' ' :: (eqs ++ X)))) := by
    simp [markerText, List.append_assoc]
  rw [hassoc, matchMarkerMylib_eq1 (dropLit_self eqs _)]
  have hE : encName = 'E' :: ("NCRYPTION THREAD/CHUNK SWEEP").data := by decide
  have hsk1 : skipWS (' ' :: (encName ++ (' ' :: (eqs ++ X)))) =
      encName ++ (' ' :: (eqs ++ X)) := by
    rw [skipWS_cons_ws (by decide)]
    apply skipWS_eq_self
    intro x hx
    rw [hE, List.cons_append] at hx
    rw [head_cons_case hx]
    decide
  rw [hsk1]
  have hD : decName = 'D' :: ("ECRYPTION THREAD/CHUNK SWEEP").data := by decide
  rw [hD, hE, List.cons_append]
  have hnone : dropLit ('D' :: ("ECRYPTION THREAD/CHUNK SWEEP").data)
      ('E' :: (("NCRYPTION THREAD/CHUNK SWEEP").data ++ (' ' :: (eqs ++ X)))) = none :=
    dropLit_head_ne (by decide)
  rw [hnone]

theorem searchFrom_skip_encMarker {X : List Char}
    (hXhead : ∀ x, X.head? = some x → x ≠ '=')
    (hL4 : matchMarkerMylib decName (eqs ++ X) = none) :
    searchFrom (matchMarkerMylib decName) (markerText encName ++ X) =
      searchFrom (matchMarkerMylib decName) X := by
  apply searchFrom_append_none
  intro a' ha' hne
  cases a' with
  | nil => exact absurd rfl hne
  | cons ac at' =>
    by_cases hac : ac = '='
    · subst hac
      have henum : ('=' :: at' : List Char) = markerText encName ∨
          ('=' :: at' : List Char) = ("== ENCRYPTION THREAD/CHUNK SWEEP ===").data ∨
          ('=' :: at' : List Char) = ("= ENCRYPTION THREAD/CHUNK SWEEP ===").data ∨
          ('=' :: at' : List Char) = eqs ∨
          ('=' :: at' : List Char) = ['=', '='] ∨ ('=' :: at' : List Char) = ['='] := by
        have hmem : ('=' :: at' : List Char) ∈ (markerText encName).tails :=
          (List.mem_tails _ _).2 ha'
        have hdec : ∀ s ∈ (markerText encName).tails, s.head? = some '=' →
            (s = markerText encName ∨
             s = ("== ENCRYPTION THREAD/CHUNK SWEEP ===").data ∨
             s = ("= ENCRYPTION THREAD/CHUNK SWEEP ===").data ∨
             s = eqs ∨ s = ['=', '='] ∨ s = ['=']) := by decide
        exact hdec _ hmem rfl
      rcases henum with he | he | he | he | he | he <;> rw [he]
      · exact matchDecName_encMarker_none X
      · have hdecomp : ("== ENCRYPTION THREAD/CHUNK SWEEP ===").data ++ X =
            '=' :: '=' :: (' ' :: (("ENCRYPTION THREAD/CHUNK SWEEP ===").data ++ X)) := by
          rw [show ("== ENCRYPTION THREAD/CHUNK SWEEP ===").data =
            '=' :: '=' :: ' ' :: ("ENCRYPTION THREAD/CHUNK SWEEP ===").data from by decide]
          rfl
        rw [hdecomp]
        exact matchMarkerMylib_none1 (dropLit_eqs_22
          (fun x hx => by rw [head_cons_case hx]; decide))
      · have hdecomp : ("= ENCRYPTION THREAD/CHUNK SWEEP ===").data ++ X =
            '=' :: (' ' :: (("ENCRYPTION THREAD/CHUNK SWEEP ===").data ++ X)) := by
          rw [show ("= ENCRYPTION THREAD/CHUNK SWEEP ===").data =
            '=' :: ' ' :: ("ENCRYPTION THREAD/CHUNK SWEEP ===").data from by decide]
          rfl
        rw [hdecomp]
        exact matchMarkerMylib_none1 (dropLit_eqs_12
          (fun x hx => by rw [head_cons_case hx]; decide))
      · exact hL4
      · have hdecomp : (['=', '='] : List Char) ++ X = '=' :: '=' :: X := rfl
        rw [hdecomp]
        exact matchMarkerMylib_none1 (dropLit_eqs_22 hXhead)
      · have hdecomp : (['='] : List Char) ++ X = '=' :: X := rfl
        rw [hdecomp]
        exact matchMarkerMylib_none1 (dropLit_eqs_12 hXhead)
    · rw [List.cons_append]
      exact matchMarkerMylib_none1 (dropLit_eqs_none
        (fun y hy => by rw [head_cons_case hy]; exact hac))

theorem matchDec_eqs_newline_none {body : List Char} (hb : ∀ ch ∈ body, ch ≠ '=') :
    matchMarkerMylib decName (eqs ++ '\n' :: body) = none := by
  rw [matchMarkerMylib_eq1 (dropLit_self eqs ('\n' :: body))]
  cases hdl : dropLit decName (skipWS ('\n' :: body)) with
  | none => rfl
  | some r2 =>
    have h1 : skipWS ('\n' :: body) <:+ body := by
      rw [skipWS_cons_ws (by decide)]
      exact List.dropWhile_suffix pyWS
    have h2 : r2 <:+ body := (dropLit_suffix hdl).trans h1
    have h3 : skipWS r2 <:+ body := (List.dropWhile_suffix pyWS).trans h2
    exact dropLit_eqs_none (fun y hy => hb y (h3.subset (mem_of_head? hy)))

/-! ## Valid triplets: matched rows whose numeric conversions succeed -/

/-- A matched triplet on which both `float` calls succeed. -/
def ValidTrip (t : List Char × List Char × List Char) : Prop :=
  GoodTrip t ∧ (floatOfToken t.2.1).isSome = true ∧ (floatOfToken t.2.2).isSome = true

instance (t : List Char) : Decidable (DigToken t) :=
  inferInstanceAs (Decidable (t ≠ [] ∧ ∀ c ∈ t, isDig c = true))

instance (t : List Char) : Decidable (NumToken t) :=
  inferInstanceAs (Decidable (t ≠ [] ∧ ∀ c ∈ t, isNumCh c = true))

instance (t : List Char × List Char × List Char) : Decidable (GoodTrip t) :=
  inferInstanceAs (Decidable (DigToken t.1 ∧ NumToken t.2.1 ∧ NumToken t.2.2))

instance (t : List Char × List Char × List Char) : Decidable (GoodTripT t) :=
  inferInstanceAs (Decidable (DigToken t.1 ∧ DigToken t.2.1 ∧ NumToken t.2.2))

instance (t : List Char × List Char × List Char) : Decidable (ValidTrip t) :=
  inferInstanceAs (Decidable (GoodTrip t ∧
    (floatOfToken t.2.1).isSome = true ∧ (floatOfToken t.2.2).isSome = true))

/-- The row a valid triplet converts to. -/
def rowOfValid (t : List Char × List Char × List Char) : Row :=
  ⟨natOfDigits t.1, (floatOfToken t.2.1).getD 0, (floatOfToken t.2.2).getD 0⟩

theorem rowOfTriplet_eq_of_valid {t : List Char × List Char × List Char}
    (h : ValidTrip t) : rowOfTriplet t = some (rowOfValid t) := by
  obtain ⟨-, h1, h2⟩ := h
  obtain ⟨ch, hch⟩ := Option.isSome_iff_exists.mp h1
  obtain ⟨thr, hthr⟩ := Option.isSome_iff_exists.mp h2
  unfold rowOfTriplet rowOfValid
  rw [hch, hthr]
  rfl

/-! ## Character inventory of rendered lines -/

theorem renderTrip_mem {t : List Char × List Char × List Char} (ht : GoodTrip t) :
    ∀ ch ∈ renderTrip t, isNumCh ch = true ∨ ch = ' ' ∨ ch = '|' ∨ ch = '\n' := by
  intro ch hch
  have hstruct : renderTrip t =
      t.1 ++ (' ' :: '|' :: ' ' :: (t.2.1 ++ (' ' :: '|' :: ' ' :: (t.2.2 ++ ['\n'])))) := by
    simp [renderTrip, renderCore, List.append_assoc]
  rw [hstruct] at hch
  simp only [List.mem_append, List.mem_cons, List.not_mem_nil, or_false] at hch
  rcases hch with h | h | h | h | h | h | h | h | h | h
  · exact Or.inl (dig_numCh (ht.1.2 ch h))
  · exact Or.inr (Or.inl h)
  · exact Or.inr (Or.inr (Or.inl h))
  · exact Or.inr (Or.inl h)
  · exact Or.inl (ht.2.1.2 ch h)
  · exact Or.inr (Or.inl h)
  · exact Or.inr (Or.inr (Or.inl h))
  · exact Or.inr (Or.inl h)
  · exact Or.inl (ht.2.2.2 ch h)
  · exact Or.inr (Or.inr (Or.inr h))

theorem renderTrips_mem {l : List (List Char × List Char × List Char)}
    (hl : ∀ t ∈ l, GoodTrip t) :
    ∀ ch ∈ renderTrips l, isNumCh ch = true ∨ ch = ' ' ∨ ch = '|' ∨ ch = '\n' := by
  induction l with
  | nil => intro ch hch; simp [renderTrips] at hch
  | cons t l' ih =>
    intro ch hch
    rw [show renderTrips (t :: l') = renderTrip t ++ renderTrips l' from rfl,
      List.mem_append] at hch
    rcases hch with hch | hch
    · exact renderTrip_mem (hl t (List.mem_cons_self ..)) ch hch
    · exact ih (fun x hx => hl x (List.mem_cons_of_mem _ hx)) ch hch

theorem renderTrips_ne_eq {l : List (List Char × List Char × List Char)}
    (hl : ∀ t ∈ l, GoodTrip t) :
    ∀ ch ∈ renderTrips l, ch ≠ '=' := by
  intro ch hch heq
  subst heq
  rcases renderTrips_mem hl '=' hch with h | h | h | h
  · exact absurd h (by decide)
  · exact absurd h (by decide)
  · exact absurd h (by decide)
  · exact absurd h (by decide)

theorem renderTrips_head_dig {l : List (List Char × List Char × List Char)}
    (hl : ∀ t ∈ l, GoodTrip t) {x : Char}
    (hx : (renderTrips l).head? = some x) : isDig x = true := by
  cases l with
  | nil => simp [renderTrips] at hx
  | cons t l' =>
    have ht := hl t (List.mem_cons_self ..)
    obtain ⟨d, ds, hds⟩ := List.exists_cons_of_ne_nil ht.1.1
    have hstruct : renderTrips (t :: l') =
        d :: (ds ++ (' ' :: '|' :: ' ' ::
          (t.2.1 ++ (' ' :: '|' :: ' ' :: (t.2.2 ++ ('\n' :: renderTrips l')))))) := by
      show renderTrip t ++ renderTrips l' = _
      simp [renderTrip, renderCore, hds, List.append_assoc]
    rw [hstruct] at hx
    rw [head_cons_case hx]
    exact ht.1.2 d (by rw [hds]; exact List.mem_cons_self ..)

theorem renderTrips_rest_nopipe_ok {l : List (List Char × List Char × List Char)}
    (hl : ∀ t ∈ l, GoodTrip t) :
    ∀ x, ((renderTrips l).dropWhile pyWS).head? = some x → x ≠ '|' := by
  intro x hx
  have hself : (renderTrips l).dropWhile pyWS = renderTrips l := by
    show skipWS (renderTrips l) = renderTrips l
    exact skipWS_eq_self (fun y hy => dig_not_ws (renderTrips_head_dig hl hy))
  rw [hself] at hx
  have hd := renderTrips_head_dig hl hx
  intro heq
  rw [heq] at hd
  exact absurd hd (by decide)

/-! ## Assembling a full parse over one rendered section -/

theorem takeBody_all {cs : List Char} (h : ∀ ch ∈ cs, ch ≠ '=') : takeBody cs = cs := by
  induction cs with
  | nil => rfl
  | cons c t ih =>
    rw [takeBody_cons_go (fun hc => h c (List.mem_cons_self ..) hc.1),
      ih (fun x hx => h x (List.mem_cons_of_mem _ hx))]

theorem searchFrom_mylib_none {name X : List Char} (hX : ∀ ch ∈ X, ch ≠ '=') :
    searchFrom (matchMarkerMylib name) X = none :=
  searchFrom_none (fun s hs => matchMarkerMylib_none1 (dropLit_eqs_none
    (fun y hy => hX y (hs.subset (mem_of_head? hy)))))

theorem encName_head_not_ws : ∀ x, encName.head? = some x → pyWS x = false := by
  intro x hx
  rw [show encName.head? = some 'E' from by decide] at hx
  obtain rfl := Option.some.inj hx
  decide

/-- A text holding just the encryption marker, a newline and an
`=`-free body parses to the rows of that body and an empty decryption
table. -/
theorem parse_mylib_single_section {body : List Char}
    (hbody : ∀ ch ∈ body, ch ≠ '=') {rows : List Row}
    (hrows : optMap rowOfTriplet (findTriplets body) = some rows) :
    parse_mylib_results (markerText encName ++ '\n' :: body) = some (rows, []) := by
  apply parse_mylib_eq.mpr
  have hX : ∀ ch ∈ ('\n' :: body : List Char), ch ≠ '=' := by
    intro ch hch
    rcases List.mem_cons.mp hch with rfl | hch
    · decide
    · exact hbody ch hch
  constructor
  · have hsearch : searchFrom (matchMarkerMylib encName)
        (markerText encName ++ '\n' :: body) = some ('\n' :: body) :=
      searchFrom_head_some (by simp [markerText, eqs])
        (matchMarkerMylib_self (by decide) encName_head_not_ws _)
    have hsec : mylibSection encName (markerText encName ++ '\n' :: body) =
        some (takeBody ('\n' :: body)) := by
      unfold mylibSection
      rw [hsearch]
      rfl
    rw [hsec, takeBody_all hX, extractMylib_some, findTriplets_skip (by decide)]
    exact hrows
  · have hskip : searchFrom (matchMarkerMylib decName)
        (markerText encName ++ '\n' :: body) =
        searchFrom (matchMarkerMylib decName) ('\n' :: body) :=
      searchFrom_skip_encMarker (fun x hx => by rw [head_cons_case hx]; decide)
        (matchDec_eqs_newline_none hbody)
    have hsec : mylibSection decName (markerText encName ++ '\n' :: body) = none := by
      unfold mylibSection
      rw [hskip, searchFrom_mylib_none hX]
      rfl
    rw [hsec]
    rfl

/-- Claim C3, amended: a line with no digit at all, or no pipe at all,
placed between valid data lines is walked over without matching and
contributes nothing; the surrounding valid rows all parse, in order.
(The claim is false as stated for malformed lines that still match the
triplet pattern: a `.` chunk field raises ValueError, see the
counterexample.) -/
theorem C3_malformed_skipped (A B : List (List Char × List Char × List Char))
    (m : List Char)
    (hA : ∀ t ∈ A, ValidTrip t) (hB : ∀ t ∈ B, ValidTrip t)
    (hmEq : ∀ ch ∈ m, ch ≠ '=')
    (hm : (∀ ch ∈ m, isDig ch = false) ∨ (∀ ch ∈ m, ch ≠ '|')) :
    parse_mylib_results (markerText encName ++ '\n' ::
        (renderTrips A ++ (m ++ '\n' :: renderTrips B))) =
      some ((A ++ B).map rowOfValid, []) := by
  have hAg : ∀ t ∈ A, GoodTrip t := fun t ht => (hA t ht).1
  have hBg : ∀ t ∈ B, GoodTrip t := fun t ht => (hB t ht).1
  apply parse_mylib_single_section
  · intro ch hch
    rcases List.mem_append.mp hch with hch | hch
    · exact renderTrips_ne_eq hAg ch hch
    · rcases List.mem_append.mp hch with hch | hch
      · exact hmEq ch hch
      · rcases List.mem_cons.mp hch with rfl | hch
        · decide
        · exact renderTrips_ne_eq hBg ch hch
  · have hmid : findTriplets (m ++ '\n' :: renderTrips B) =
        findTriplets (renderTrips B) := by
      rcases hm with hm | hm
      · rw [findTriplets_inert_nodigit hm ('\n' :: renderTrips B),
          findTriplets_skip (by decide)]
      · exact findTriplets_inert_nopipe hm (renderTrips_rest_nopipe_ok hBg)
    have hfB : findTriplets (renderTrips B) = B := by
      have h := findTriplets_renderTrips hBg []
      rw [List.append_nil] at h
      rw [h, show findTriplets ([] : List Char) = [] from rfl, List.append_nil]
    rw [findTriplets_renderTrips hAg, hmid, hfB]
    exact optMap_of_forall rowOfValid (fun t ht => rowOfTriplet_eq_of_valid (by
      rcases List.mem_append.mp ht with ht | ht
      · exact hA t ht
      · exact hB t ht))

theorem C3_malformed_skipped_witness :
    parse_mylib_results (markerText encName ++ '\n' ::
        (renderTrips [(['1'], ['2'], ['3'])] ++
          (("no pipes here").data ++ '\n' :: renderTrips [(['4'], ['5'], ['6'])]))) =
      some ([⟨1, mkRat 2 1, mkRat 3 1⟩, ⟨4, mkRat 5 1, mkRat 6 1⟩], []) := by
  have h := C3_malformed_skipped [(['1'], ['2'], ['3'])] [(['4'], ['5'], ['6'])]
    (("no pipes here").data) (by decide) (by decide) (by decide) (Or.inr (by decide))
  exact h.trans (by decide)

/-! ## The test-parser marker search -/

/-- `dropLit` is doomed: the literal and the input diverge before
either runs out. -/
def dlStuck : List Char → List Char → Bool
  | [], _ => false
  | _ :: _, [] => false
  | a :: l, c :: p => if c = a then dlStuck l p else true

theorem dlStuck_cons_same {a : Char} {l p : List Char} :
    dlStuck (a :: l) (a :: p) = dlStuck l p := by
  rw [show dlStuck (a :: l) (a :: p) = if a = a then dlStuck l p else true from rfl,
    if_pos rfl]

theorem dropLit_of_dlStuck : ∀ {l p : List Char}, dlStuck l p = true →
    ∀ X, dropLit l (p ++ X) = none := by
  intro l
  induction l with
  | nil => intro p h X; simp [dlStuck] at h
  | cons a l' ih =>
    intro p h X
    cases p with
    | nil => simp [dlStuck] at h
    | cons cc p' =>
      by_cases hcc : cc = a
      · subst hcc
        rw [dlStuck_cons_same] at h
        rw [List.cons_append, dropLit_cons_same]
        exact ih h X
      · rw [List.cons_append]
        exact dropLit_head_ne hcc

theorem encMarker_suffix_cases {a' : List Char} (ha' : a' <:+ markerText encName)
    (hh : a'.head? = some '=') :
    a' = markerText encName ∨
    a' = ("== ENCRYPTION THREAD/CHUNK SWEEP ===").data ∨
    a' = ("= ENCRYPTION THREAD/CHUNK SWEEP ===").data ∨
    a' = eqs ∨ a' = ['=', '='] ∨ a' = ['='] := by
  have hmem : a' ∈ (markerText encName).tails := (List.mem_tails _ _).2 ha'
  have hdec : ∀ s ∈ (markerText encName).tails, s.head? = some '=' →
      (s = markerText encName ∨
       s = ("== ENCRYPTION THREAD/CHUNK SWEEP ===").data ∨
       s = ("= ENCRYPTION THREAD/CHUNK SWEEP ===").data ∨
       s = eqs ∨ s = ['=', '='] ∨ s = ['=']) := by decide
  exact hdec _ hmem hh

theorem matchMarkerTest_self (name rest : List Char) :
    matchMarkerTest name (markerText name ++ rest) = some rest :=
  dropLit_self _ _

theorem matchMarkerTest_head_ne {name cs : List Char}
    (h : ∀ y, cs.head? = some y → y ≠ '=') :
    matchMarkerTest name cs = none := by
  cases cs with
  | nil => rfl
  | cons cc r =>
    show dropLit (markerText name) (cc :: r) = none
    rw [show markerText name = '=' :: ('=' :: '=' :: ' ' :: (name ++ ' ' :: eqs)) from rfl]
    exact dropLit_head_ne (h cc rfl)

theorem searchFrom_test_none {name X : List Char} (hX : ∀ ch ∈ X, ch ≠ '=') :
    searchFrom (matchMarkerTest name) X = none :=
  searchFrom_none (fun s hs => matchMarkerTest_head_ne
    (fun y hy => hX y (hs.subset (mem_of_head? hy))))

theorem searchFrom_skip_encMarker_test (Y : List Char) :
    searchFrom (matchMarkerTest decName) (markerText encName ++ '\n' :: Y) =
      searchFrom (matchMarkerTest decName) ('\n' :: Y) := by
  apply searchFrom_append_none
  intro a' ha' hne
  cases a' with
  | nil => exact absurd rfl hne
  | cons ac at' =>
    by_cases hac : ac = '='
    · subst hac
      rcases encMarker_suffix_cases ha' rfl with he | he | he | he | he | he <;> rw [he]
      · exact dropLit_of_dlStuck (by decide) _
      · exact dropLit_of_dlStuck (by decide) _
      · exact dropLit_of_dlStuck (by decide) _
      · show dropLit (markerText decName) (eqs ++ '\n' :: Y) = none
        rw [show markerText decName =
            '=' :: '=' :: '=' :: ' ' :: (decName ++ ' ' :: eqs) from rfl,
          show (eqs ++ '\n' :: Y : List Char) = '=' :: '=' :: '=' :: '\n' :: Y from rfl,
          dropLit_cons_same, dropLit_cons_same, dropLit_cons_same]
        exact dropLit_head_ne (by decide)
      · show dropLit (markerText decName) ((['=', '='] : List Char) ++ '\n' :: Y) = none
        rw [show markerText decName =
            '=' :: '=' :: '=' :: ' ' :: (decName ++ ' ' :: eqs) from rfl,
          show ((['=', '='] : List Char) ++ '\n' :: Y) = '=' :: '=' :: '\n' :: Y from rfl,
          dropLit_cons_same, dropLit_cons_same]
        exact dropLit_head_ne (by decide)
      · show dropLit (markerText decName) ((['='] : List Char) ++ '\n' :: Y) = none
        rw [show markerText decName =
            '=' :: '=' :: '=' :: ' ' :: (decName ++ ' ' :: eqs) from rfl,
          show ((['='] : List Char) ++ '\n' :: Y) = '=' :: '\n' :: Y from rfl,
          dropLit_cons_same]
        exact dropLit_head_ne (by decide)
    · rw [List.cons_append]
      exact matchMarkerTest_head_ne (fun y hy => by rw [head_cons_case hy]; exact hac)

theorem takeBodyT_cons_eq (c : Char) (t : List Char) :
    takeBodyT (c :: t) =
      if c = '=' ∧ t.head? = some '=' then []
      else if c = '\n' ∧ t = [] then [] else c :: takeBodyT t := rfl

theorem takeBodyT_all_final {cs : List Char} (h : ∀ ch ∈ cs, ch ≠ '=') :
    takeBodyT (cs ++ ['\n']) = cs := by
  induction cs with
  | nil => decide
  | cons c t ih =>
    rw [List.cons_append, takeBodyT_cons_eq,
      if_neg (fun hc => h c (List.mem_cons_self ..) hc.1),
      if_neg (fun hc => by have h2 := hc.2; simp at h2),
      ih (fun x hx => h x (List.mem_cons_of_mem _ hx))]

/-- A text holding just the (exact) encryption marker, a newline and
an `=`-free newline-terminated body parses through test_parser.py to
the rows of that body and an empty decryption table; `$` without
MULTILINE strips the final newline from the captured body. -/
theorem parse_test_single_section {core : List Char}
    (hcore : ∀ ch ∈ core, ch ≠ '=') {rows : List Row}
    (hrows : optMap rowOfTripletT (findTripletsT ('\n' :: core)) = some rows) :
    parse_test_results (markerText encName ++ '\n' :: (core ++ ['\n'])) =
      some (rows, []) := by
  apply parse_test_eq.mpr
  have hX : ∀ ch ∈ ('\n' :: core : List Char), ch ≠ '=' := by
    intro ch hch
    rcases List.mem_cons.mp hch with rfl | hch
    · decide
    · exact hcore ch hch
  constructor
  · have hsearch : searchFrom (matchMarkerTest encName)
        (markerText encName ++ '\n' :: (core ++ ['\n'])) =
        some ('\n' :: (core ++ ['\n'])) :=
      searchFrom_head_some (by simp [markerText, eqs]) (matchMarkerTest_self encName _)
    have htb : takeBodyT ('\n' :: (core ++ ['\n'])) = '\n' :: core := by
      rw [show ('\n' :: (core ++ ['\n']) : List Char) = ('\n' :: core) ++ ['\n'] from by simp]
      exact takeBodyT_all_final hX
    have hsec : testSection encName (markerText encName ++ '\n' :: (core ++ ['\n'])) =
        some ('\n' :: core) := by
      unfold testSection
      rw [hsearch]
      exact congrArg some htb
    rw [hsec, extractTest_some, if_neg (by simp)]
    exact hrows
  · have hskip := searchFrom_skip_encMarker_test (core ++ ['\n'])
    have hnone : searchFrom (matchMarkerTest decName) ('\n' :: (core ++ ['\n'])) = none := by
      apply searchFrom_test_none
      intro ch hch
      rcases List.mem_cons.mp hch with rfl | hch
      · decide
      · rcases List.mem_append.mp hch with hch | hch
        · exact hcore ch hch
        · rw [List.mem_singleton] at hch
          subst hch
          decide
    have hsec : testSection decName (markerText encName ++ '\n' :: (core ++ ['\n'])) =
        none := by
      unfold testSection
      rw [hskip, hnone]
      rfl
    rw [hsec]
    rfl

/-- Claim C4, amended: for a data line whose chunk and throughput
fields are integer or decimal tokens that `float` accepts, charts.py
extracts the row with both exact values; test_parser.py implements the
integer-chunk contract only — its row pattern is `(\d+)` for the chunk
field, so the decimal-chunk half fails for that entry point (see the
counterexample), while on an integer chunk field it extracts the same
row. -/
theorem C4_numeric_fields (a b c : List Char) (q r : ℚ)
    (ha : DigToken a) (hb : NumToken b) (hc : NumToken c)
    (hq : floatOfToken b = some q) (hr : floatOfToken c = some r) :
    parse_mylib_results (markerText encName ++ '\n' :: (renderCore (a, b, c) ++ ['\n'])) =
      some ([⟨natOfDigits a, q, r⟩], []) ∧
    (DigToken b →
      parse_test_results (markerText encName ++ '\n' :: (renderCore (a, b, c) ++ ['\n'])) =
        some ([⟨natOfDigits a, mkRat (natOfDigits b) 1, r⟩], [])) := by
  have hg : GoodTrip (a, b, c) := ⟨ha, hb, hc⟩
  have hcore : ∀ ch ∈ renderCore (a, b, c), ch ≠ '=' := by
    intro ch hch heq
    subst heq
    rcases renderTrip_mem hg '=' (List.mem_append_left _ hch) with h | h | h | h
    · exact absurd h (by decide)
    · exact absurd h (by decide)
    · exact absurd h (by decide)
    · exact absurd h (by decide)
  constructor
  · have hbody : ∀ ch ∈ (renderCore (a, b, c) ++ ['\n'] : List Char), ch ≠ '=' := by
      intro ch hch
      rcases List.mem_append.mp hch with hch | hch
      · exact hcore ch hch
      · rw [List.mem_singleton] at hch
        subst hch
        decide
    apply parse_mylib_single_section hbody
    have hm : matchTriplet (renderTrip (a, b, c) ++ []) = some ((a, b, c), '\n' :: []) :=
      matchTriplet_renderTrip hg
    rw [List.append_nil,
      show renderTrip (a, b, c) = renderCore (a, b, c) ++ ['\n'] from rfl] at hm
    have hfind : findTriplets (renderCore (a, b, c) ++ ['\n']) = [(a, b, c)] := by
      rw [findTriplets_cons_some hm, findTriplets_skip (by decide)]
      rfl
    rw [hfind]
    have hrow : rowOfTriplet (a, b, c) = some ⟨natOfDigits a, q, r⟩ := by
      simp [rowOfTriplet, hq, hr, bind, pure]
    exact optMap_of_forall (fun _ => (⟨natOfDigits a, q, r⟩ : Row))
      (fun t ht => by rw [List.mem_singleton] at ht; subst ht; exact hrow)
  · intro hbDig
    apply parse_test_single_section hcore
    have hm : matchTripletT (renderCore (a, b, c) ++ []) = some ((a, b, c), []) :=
      matchTripletT_renderCore ha hbDig hc (fun x hx => by simp at hx)
    rw [List.append_nil] at hm
    rw [findTripletsT_skip (by decide), findTripletsT_cons_some hm,
      show findTripletsT ([] : List Char) = [] from rfl]
    have hrow : rowOfTripletT (a, b, c) =
        some ⟨natOfDigits a, mkRat (natOfDigits b) 1, r⟩ := by
      simp [rowOfTripletT, hr, bind, pure]
    exact optMap_of_forall (fun _ => (⟨natOfDigits a, mkRat (natOfDigits b) 1, r⟩ : Row))
      (fun t ht => by rw [List.mem_singleton] at ht; subst ht; exact hrow)

theorem C4_numeric_fields_witness :
    parse_mylib_results (markerText encName ++ '\n' ::
        (renderCore (['2'], ['0', '.', '5'], ['1', '0', '0', '.', '0']) ++ ['\n'])) =
      some ([⟨2, mkRat 5 10, mkRat 1000 10⟩], []) ∧
    parse_test_results (markerText encName ++ '\n' ::
        (renderCore (['2'], ['4'], ['1', '0', '0', '.', '0']) ++ ['\n'])) =
      some ([⟨2, mkRat 4 1, mkRat 1000 10⟩], []) := by
  constructor
  · exact (C4_numeric_fields ['2'] ['0', '.', '5'] ['1', '0', '0', '.', '0']
      (mkRat 5 10) (mkRat 1000 10)
      (by decide) (by decide) (by decide) (by decide) (by decide)).1
  · exact (C4_numeric_fields ['2'] ['4'] ['1', '0', '0', '.', '0']
      (mkRat 4 1) (mkRat 1000 10)
      (by decide) (by decide) (by decide) (by decide) (by decide)).2 (by decide)

/-! ## Pure digit tokens convert like integers -/

theorem floatOfToken_digits {b : List Char} (hb : DigToken b) :
    floatOfToken b = some (mkRat (natOfDigits b) 1) := by
  have hall : ∀ x ∈ b, (x != '.') = true := fun x hx =>
    bne_iff_ne.mpr (class_ne (hb.2 x hx) (show isDig '.' = false from by decide))
  have hdrop : b.dropWhile (fun c => c != '.') = [] :=
    List.dropWhile_eq_nil_iff.mpr hall
  have htake : b.takeWhile (fun c => c != '.') = b := by
    have h0 : b.takeWhile (fun c => c != '.') ++ b.dropWhile (fun c => c != '.') = b :=
      List.takeWhile_append_dropWhile _ _
    rw [hdrop, List.append_nil] at h0
    exact h0
  unfold floatOfToken
  rw [hdrop, htake, if_neg hb.1]

theorem rowOfTripletT_eq_rowOfTriplet {t : List Char × List Char × List Char}
    (hb : DigToken t.2.1) : rowOfTripletT t = rowOfTriplet t := by
  unfold rowOfTriplet rowOfTripletT
  rw [floatOfToken_digits hb]
  rfl

theorem renderTrips_append (x y : List (List Char × List Char × List Char)) :
    renderTrips (x ++ y) = renderTrips x ++ renderTrips y := by
  induction x with
  | nil => rfl
  | cons t x' ih => simp [renderTrips, ih, List.append_assoc]

theorem findTriplets_renderTrips_nil {l : List (List Char × List Char × List Char)}
    (hl : ∀ t ∈ l, GoodTrip t) : findTriplets (renderTrips l) = l := by
  have h := findTriplets_renderTrips hl []
  rw [List.append_nil] at h
  rw [h, show findTriplets ([] : List Char) = [] from rfl, List.append_nil]

/-- Claim C10, amended: the two triplet implementations agree on any
canonical encryption section of rendered data lines whose chunk field
is an integer token, both producing that section's rows and an empty
decryption table; they are not equivalent in general — a decimal
chunk field is parsed by charts.py but rejected by test_parser.py's
`(\d+)` chunk pattern (see the counterexample). -/
theorem C10_equiv_integer_chunk (A : List (List Char × List Char × List Char))
    (hA : ∀ t ∈ A, GoodTripT t ∧ (floatOfToken t.2.2).isSome = true) :
    parse_test_results (markerText encName ++ '\n' :: renderTrips A) =
      parse_mylib_results (markerText encName ++ '\n' :: renderTrips A) ∧
    parse_mylib_results (markerText encName ++ '\n' :: renderTrips A) =
      some (A.map rowOfValid, []) := by
  have hAgT : ∀ t ∈ A, GoodTripT t := fun t ht => (hA t ht).1
  have hAg : ∀ t ∈ A, GoodTrip t := fun t ht => (hAgT t ht).goodTrip
  have hAv : ∀ t ∈ A, ValidTrip t := fun t ht =>
    ⟨hAg t ht, by rw [floatOfToken_digits (hAgT t ht).2.1]; rfl, (hA t ht).2⟩
  have hM : parse_mylib_results (markerText encName ++ '\n' :: renderTrips A) =
      some (A.map rowOfValid, []) := by
    apply parse_mylib_single_section (renderTrips_ne_eq hAg)
    rw [findTriplets_renderTrips_nil hAg]
    exact optMap_of_forall rowOfValid (fun t ht => rowOfTriplet_eq_of_valid (hAv t ht))
  have hT : parse_test_results (markerText encName ++ '\n' :: renderTrips A) =
      some (A.map rowOfValid, []) := by
    rcases List.eq_nil_or_concat A with rfl | ⟨A', t, rfl⟩
    · show parse_test_results (markerText encName ++ ['\n']) = some ([], [])
      apply parse_test_eq.mpr
      refine ⟨?_, ?_⟩
      · have hsearch : searchFrom (matchMarkerTest encName)
            (markerText encName ++ ['\n']) = some ['\n'] :=
          searchFrom_head_some (by simp [markerText, eqs]) (matchMarkerTest_self encName ['\n'])
        have hsec : testSection encName (markerText encName ++ ['\n']) = some [] := by
          unfold testSection
          rw [hsearch]
          rfl
        rw [hsec]
        rfl
      · have hskip := searchFrom_skip_encMarker_test []
        have hnone : searchFrom (matchMarkerTest decName) ['\n'] = none :=
          searchFrom_test_none (by
            intro ch hch
            rw [List.mem_singleton] at hch
            subst hch
            decide)
        have hsec : testSection decName (markerText encName ++ ['\n']) = none := by
          unfold testSection
          rw [show (markerText encName ++ ['\n'] : List Char) =
            markerText encName ++ '\n' :: [] from rfl, hskip,
            show ('\n' :: [] : List Char) = ['\n'] from rfl, hnone]
          rfl
        rw [hsec]
        rfl
    · simp only [List.concat_eq_append] at hA hAgT hAg hAv ⊢
      have hgT : GoodTripT t := hAgT t (List.mem_append_right _ (List.mem_singleton.mpr rfl))
      have hgt : GoodTrip t := hgT.goodTrip
      have hrt : renderTrips (A' ++ [t]) = (renderTrips A' ++ renderCore t) ++ ['\n'] := by
        rw [renderTrips_append]
        simp [renderTrips, renderTrip, List.append_assoc]
      rw [hrt]
      apply parse_test_single_section
      · intro ch hch
        rcases List.mem_append.mp hch with hch | hch
        · exact renderTrips_ne_eq (fun x hx => hAg x (List.mem_append_left _ hx)) ch hch
        · intro heq
          subst heq
          rcases renderTrip_mem hgt '=' (List.mem_append_left _ hch) with h | h | h | h
          · exact absurd h (by decide)
          · exact absurd h (by decide)
          · exact absurd h (by decide)
          · exact absurd h (by decide)
      · have hmt : matchTripletT (renderCore t ++ []) = some (t, []) := by
          obtain ⟨ta, tb, tc⟩ := t
          exact matchTripletT_renderCore hgT.1 hgT.2.1 hgT.2.2 (fun x hx => by simp at hx)
        rw [List.append_nil] at hmt
        rw [findTripletsT_skip (by decide),
          findTripletsT_renderTrips (fun x hx => hAgT x (List.mem_append_left _ hx)),
          findTripletsT_cons_some hmt,
          show findTripletsT ([] : List Char) = [] from rfl]
        exact optMap_of_forall rowOfValid (fun x hx => by
          have hxA : x ∈ A' ++ [t] := by simpa using hx
          exact (rowOfTripletT_eq_rowOfTriplet (hAgT x hxA).2.1).trans
            (rowOfTriplet_eq_of_valid (hAv x hxA)))
  exact ⟨hT.trans hM.symm, hM⟩

theorem C10_equiv_integer_chunk_witness :
    parse_test_results (markerText encName ++ '\n' ::
        renderTrips [(['1'], ['2'], ['3', '.', '5'])]) =
      parse_mylib_results (markerText encName ++ '\n' ::
        renderTrips [(['1'], ['2'], ['3', '.', '5'])]) ∧
    parse_mylib_results (markerText encName ++ '\n' ::
        renderTrips [(['1'], ['2'], ['3', '.', '5'])]) =
      some ([⟨1, mkRat 2 1, mkRat 35 10⟩], []) := by
  have h := C10_equiv_integer_chunk [(['1'], ['2'], ['3', '.', '5'])] (by decide)
  exact ⟨h.1, h.2.trans (by decide)⟩

/-! ## Decimal rendering of parsed values -/

/-- ASCII digit character of a value below ten. -/
def digitChar (n : ℕ) : Char :=
  Char.ofNat (48 + n)

/-- Decimal digits of a natural number (fueled). -/
def digitsNF : ℕ → ℕ → List Char
  | 0, _ => []
  | fuel + 1, n =>
    if n < 10 then [digitChar n]
    else digitsNF fuel (n / 10) ++ [digitChar (n % 10)]

/-- Decimal digits of a natural number. -/
def digitsN (n : ℕ) : List Char :=
  digitsNF (n + 1) n

/-- Exactly `k` decimal digits of a value below `10 ^ k`, with leading
zeros. -/
def padDigits : ℕ → ℕ → List Char
  | 0, _ => []
  | k + 1, m => digitChar (m / 10 ^ k) :: padDigits k (m % 10 ^ k)

theorem charVal_digitChar {m : ℕ} (hm : m < 10) : charVal (digitChar m) = m := by
  interval_cases m <;> decide

theorem isDig_digitChar {m : ℕ} (hm : m < 10) : isDig (digitChar m) = true := by
  interval_cases m <;> decide

theorem natOfDigits_foldl : ∀ (b : List Char) (init : ℕ),
    b.foldl (fun n c => 10 * n + charVal c) init =
      init * 10 ^ b.length + natOfDigits b := by
  intro b
  induction b with
  | nil => intro init; simp [natOfDigits]
  | cons c t ih =>
    intro init
    rw [List.foldl_cons, ih (10 * init + charVal c)]
    have h2 : natOfDigits (c :: t) = (10 * 0 + charVal c) * 10 ^ t.length + natOfDigits t := by
      show t.foldl (fun n ch => 10 * n + charVal ch) (10 * 0 + charVal c) = _
      rw [ih (10 * 0 + charVal c)]
    rw [h2, List.length_cons, pow_succ]
    ring

theorem natOfDigits_append (a b : List Char) :
    natOfDigits (a ++ b) = natOfDigits a * 10 ^ b.length + natOfDigits b := by
  show (a ++ b).foldl (fun n c => 10 * n + charVal c) 0 = _
  rw [List.foldl_append]
  exact natOfDigits_foldl b (natOfDigits a)

theorem digitsNF_succ (fuel n : ℕ) :
    digitsNF (fuel + 1) n =
      if n < 10 then [digitChar n]
      else digitsNF fuel (n / 10) ++ [digitChar (n % 10)] := rfl

theorem digitsNF_spec : ∀ fuel n, n < fuel →
    digitsNF fuel n ≠ [] ∧ (∀ c ∈ digitsNF fuel n, isDig c = true) ∧
    natOfDigits (digitsNF fuel n) = n := by
  intro fuel
  induction fuel with
  | zero => intro n h; omega
  | succ fuel ih =>
    intro n hn
    by_cases h10 : n < 10
    · rw [digitsNF_succ, if_pos h10]
      refine ⟨by simp, ?_, ?_⟩
      · intro c hc
        rw [List.mem_singleton] at hc
        subst hc
        exact isDig_digitChar h10
      · show natOfDigits [digitChar n] = n
        simp [natOfDigits, charVal_digitChar h10]
    · have hdiv : n / 10 < fuel := by
        have h1 : n / 10 < n := Nat.div_lt_self (by omega) (by omega)
        omega
      obtain ⟨hne, hdig, hval⟩ := ih (n / 10) hdiv
      rw [digitsNF_succ, if_neg h10]
      refine ⟨by simp [hne], ?_, ?_⟩
      · intro c hc
        rcases List.mem_append.mp hc with hc | hc
        · exact hdig c hc
        · rw [List.mem_singleton] at hc
          subst hc
          exact isDig_digitChar (Nat.mod_lt _ (by omega))
      · rw [natOfDigits_append, hval]
        have h1 : natOfDigits [digitChar (n % 10)] = n % 10 := by
          simp [natOfDigits, charVal_digitChar (Nat.mod_lt n (show 0 < 10 from by omega))]
        rw [h1, show ([digitChar (n % 10)] : List Char).length = 1 from rfl, pow_one]
        omega

theorem digitsN_spec (n : ℕ) :
    digitsN n ≠ [] ∧ (∀ c ∈ digitsN n, isDig c = true) ∧
    natOfDigits (digitsN n) = n :=
  digitsNF_spec (n + 1) n (by omega)

theorem padDigits_length : ∀ k m, (padDigits k m).length = k := by
  intro k
  induction k with
  | zero => intro m; rfl
  | succ k ih => intro m; simp [padDigits, ih]

theorem padDigits_spec : ∀ k m, m < 10 ^ k →
    (∀ c ∈ padDigits k m, isDig c = true) ∧ natOfDigits (padDigits k m) = m := by
  intro k
  induction k with
  | zero =>
    intro m hm
    rw [pow_zero] at hm
    refine ⟨by simp [padDigits], ?_⟩
    show (0 : ℕ) = m
    omega
  | succ k ih =>
    intro m hm
    have hpos : 0 < 10 ^ k := pow_pos (by omega) k
    have hdl : m / 10 ^ k < 10 := by
      have hm' : m < 10 * 10 ^ k := by
        rw [pow_succ] at hm
        rw [Nat.mul_comm] at hm
        exact hm
      exact (Nat.div_lt_iff_lt_mul hpos).mpr hm'
    have hmod : m % 10 ^ k < 10 ^ k := Nat.mod_lt _ hpos
    obtain ⟨hdig, hval⟩ := ih (m % 10 ^ k) hmod
    constructor
    · intro c hc
      rcases List.mem_cons.mp hc with rfl | hc
      · exact isDig_digitChar hdl
      · exact hdig c hc
    · show natOfDigits (digitChar (m / 10 ^ k) :: padDigits k (m % 10 ^ k)) = m
      rw [show (digitChar (m / 10 ^ k) :: padDigits k (m % 10 ^ k) : List Char) =
        [digitChar (m / 10 ^ k)] ++ padDigits k (m % 10 ^ k) from rfl,
        natOfDigits_append, hval, padDigits_length]
      have h1 : natOfDigits [digitChar (m / 10 ^ k)] = m / 10 ^ k := by
        simp [natOfDigits, charVal_digitChar hdl]
      rw [h1]
      have h2 := Nat.div_add_mod m (10 ^ k)
      rw [Nat.mul_comm] at h2
      exact h2

/-! ## Denominators dividing a power of ten -/

theorem dvd_ten_pow_self {d j : ℕ} (hd : d ≠ 0) (h : d ∣ 10 ^ j) : d ∣ 10 ^ d := by
  have h10j : (10 : ℕ) ^ j ≠ 0 := pow_ne_zero _ (by omega)
  have h10d : (10 : ℕ) ^ d ≠ 0 := pow_ne_zero _ (by omega)
  rw [← Nat.factorization_le_iff_dvd hd h10d]
  have hj := (Nat.factorization_le_iff_dvd hd h10j).mpr h
  rw [Nat.factorization_pow] at hj ⊢
  rw [Finsupp.le_def] at hj ⊢
  intro p
  simp only [Finsupp.smul_apply, smul_eq_mul] at hj ⊢
  by_cases hp : Nat.factorization 10 p = 0
  · have hjp := hj p
    rw [hp] at hjp ⊢
    omega
  · have h1 : 1 ≤ Nat.factorization 10 p := Nat.pos_of_ne_zero hp
    have h2 : d.factorization p < d := Nat.factorization_lt p hd
    calc d.factorization p ≤ d * 1 := by omega
    _ ≤ d * Nat.factorization 10 p := Nat.mul_le_mul_left d h1

/-! ## Rendering a rational back to a numeric token -/

/-- Numerator of `q` over the common denominator `10 ^ q.den`. -/
def renderNum (q : ℚ) : ℕ :=
  q.num.toNat * (10 ^ q.den / q.den)

/-- Decimal token for a parsed value: integer part, a dot, `q.den`
fractional digits. -/
def renderQ (q : ℚ) : List Char :=
  digitsN (renderNum q / 10 ^ q.den) ++ '.' :: padDigits q.den (renderNum q % 10 ^ q.den)

theorem floatOfToken_decimal {A B : List Char} (hA : DigToken A)
    (hB : ∀ c ∈ B, isDig c = true) :
    floatOfToken (A ++ '.' :: B) =
      some (mkRat (natOfDigits (A ++ B)) (10 ^ B.length)) := by
  have hpA : ∀ c ∈ A, (c != '.') = true := fun c hc =>
    bne_iff_ne.mpr (class_ne (hA.2 c hc) (show isDig '.' = false from by decide))
  have hhead : ∀ x, ('.' :: B : List Char).head? = some x → (x != '.') = false := by
    intro x hx
    rw [head_cons_case hx]
    simp
  obtain ⟨htake, hdrop⟩ := takeWhile_dropWhile_append hpA hhead
  have hcon : B.contains '.' = false := by
    by_cases hc : B.contains '.' = true
    · exact absurd (hB '.' (List.elem_iff.mp hc)) (by decide)
    · exact Bool.eq_false_iff.mpr hc
  have hmem : '.' ∉ B := fun hm => absurd (hB '.' hm) (by decide)
  simp [floatOfToken, hdrop, htake, hcon, hA.1, hmem]

theorem mkRat_renderNum {q : ℚ} (hq0 : 0 ≤ q) (hdvd : q.den ∣ 10 ^ q.den) :
    mkRat (renderNum q : ℤ) (10 ^ q.den) = q := by
  obtain ⟨t, ht⟩ := hdvd
  have hden : q.den ≠ 0 := q.den_nz
  have hden0 : 0 < q.den := Nat.pos_of_ne_zero hden
  have ht0 : t ≠ 0 := by
    intro h0
    rw [h0, Nat.mul_zero] at ht
    exact absurd ht (pow_ne_zero _ (by omega))
  have hquot : 10 ^ q.den / q.den = t := by
    rw [ht]
    exact Nat.mul_div_cancel_left t hden0
  unfold renderNum
  rw [hquot, ht, Rat.mkRat_eq_div]
  push_cast [Int.toNat_of_nonneg (Rat.num_nonneg.mpr hq0)]
  rw [mul_div_mul_right _ _ (show ((t : ℚ)) ≠ 0 from Nat.cast_ne_zero.mpr ht0)]
  exact Rat.num_div_den q

theorem floatOfToken_renderQ {q : ℚ} (hq : RatDec q) :
    floatOfToken (renderQ q) = some q := by
  obtain ⟨hq0, j, hdvdj⟩ := hq
  have hd : q.den ≠ 0 := q.den_nz
  have hdvd : q.den ∣ 10 ^ q.den := dvd_ten_pow_self hd hdvdj
  have hIspec := digitsN_spec (renderNum q / 10 ^ q.den)
  have hFlt : renderNum q % 10 ^ q.den < 10 ^ q.den := Nat.mod_lt _ (pow_pos (by omega) _)
  obtain ⟨hFdig, hFval⟩ := padDigits_spec q.den _ hFlt
  have hA : DigToken (digitsN (renderNum q / 10 ^ q.den)) := ⟨hIspec.1, hIspec.2.1⟩
  show floatOfToken (digitsN (renderNum q / 10 ^ q.den) ++
    '.' :: padDigits q.den (renderNum q % 10 ^ q.den)) = some q
  rw [floatOfToken_decimal hA hFdig]
  congr 1
  rw [natOfDigits_append, hIspec.2.2, hFval, padDigits_length]
  have hsplit : renderNum q / 10 ^ q.den * 10 ^ q.den + renderNum q % 10 ^ q.den =
      renderNum q := by
    have h2 := Nat.div_add_mod (renderNum q) (10 ^ q.den)
    rw [Nat.mul_comm] at h2
    exact h2
  rw [hsplit]
  exact mkRat_renderNum hq0 hdvd

/-! ## Parsing a rendered two-section file -/

theorem decName_head_not_ws : ∀ x, decName.head? = some x → pyWS x = false := by
  intro x hx
  rw [show decName.head? = some 'D' from by decide] at hx
  obtain rfl := Option.some.inj hx
  decide

theorem takeBody_upto_eq2 {P R : List Char} (hP : ∀ ch ∈ P, ch ≠ '=') :
    takeBody (P ++ '=' :: '=' :: R) = P := by
  induction P with
  | nil => exact takeBody_cons_stop rfl rfl
  | cons c t ih =>
    rw [List.cons_append,
      takeBody_cons_go (fun hc => hP c (List.mem_cons_self ..) hc.1),
      ih (fun x hx => hP x (List.mem_cons_of_mem _ hx))]

/-- A decomposition of a nonempty rendered block: it starts with the
first digit of its first line. -/
theorem renderTrips_cons_decomp {t : List Char × List Char × List Char}
    {l : List (List Char × List Char × List Char)} (ht : GoodTrip t) :
    ∃ d ds, isDig d = true ∧ renderTrips (t :: l) = d :: ds := by
  obtain ⟨d, ds0, hds⟩ := List.exists_cons_of_ne_nil ht.1.1
  refine ⟨d, ds0 ++ (' ' :: '|' :: ' ' ::
      (t.2.1 ++ (' ' :: '|' :: ' ' :: (t.2.2 ++ ('\n' :: renderTrips l))))),
    ht.1.2 d (by rw [hds]; exact List.mem_cons_self ..), ?_⟩
  show renderTrip t ++ renderTrips l = _
  simp [renderTrip, renderCore, hds, List.append_assoc]

/-- The decryption marker's regex cannot match right at `===` followed
by a newline when the following text, after leading whitespace, does
not start with `D`. -/
theorem matchDec_eqs_newline_none2 {Z : List Char}
    (hz : ∀ y, (Z.dropWhile pyWS).head? = some y → y ≠ 'D') :
    matchMarkerMylib decName (eqs ++ '\n' :: Z) = none := by
  rw [matchMarkerMylib_eq1 (dropLit_self eqs ('\n' :: Z))]
  have hskw : skipWS ('\n' :: Z) = Z.dropWhile pyWS := skipWS_cons_ws (by decide)
  rw [hskw]
  cases hzz : Z.dropWhile pyWS with
  | nil => rfl
  | cons y ys =>
    have h1 : dropLit decName (y :: ys) = none := by
      rw [show decName = 'D' :: ("ECRYPTION THREAD/CHUNK SWEEP").data from by decide]
      exact dropLit_head_ne (hz y (by rw [hzz]; rfl))
    rw [h1]

theorem extractMylib_mem_ratDec {sec : Option (List Char)} {rows : List Row}
    (h : extractMylib sec = some rows) :
    ∀ r ∈ rows, RatDec r.chunkMB ∧ RatDec r.throughput := by
  intro r hr
  cases sec with
  | none =>
    obtain rfl := Option.some.inj h
    simp at hr
  | some body =>
    rw [extractMylib_some] at h
    obtain ⟨t, _, hrow⟩ := optMap_mem h r hr
    obtain ⟨ch, thr, hch, hthr, rfl⟩ := rowOfTriplet_inv hrow
    exact ⟨floatOfToken_ratDec hch, floatOfToken_ratDec hthr⟩

/-- A canonically rendered two-section file parses to exactly the two
rendered tables. -/
theorem parse_mylib_two_sections {TE TD : List (List Char × List Char × List Char)}
    (hTE : ∀ t ∈ TE, ValidTrip t) (hTD : ∀ t ∈ TD, ValidTrip t) :
    parse_mylib_results (markerText encName ++ '\n' ::
        (renderTrips TE ++ (markerText decName ++ '\n' :: renderTrips TD))) =
      some (TE.map rowOfValid, TD.map rowOfValid) := by
  have hTEg : ∀ t ∈ TE, GoodTrip t := fun t ht => (hTE t ht).1
  have hTDg : ∀ t ∈ TD, GoodTrip t := fun t ht => (hTD t ht).1
  apply parse_mylib_eq.mpr
  constructor
  · have hsearch : searchFrom (matchMarkerMylib encName)
        (markerText encName ++ '\n' ::
          (renderTrips TE ++ (markerText decName ++ '\n' :: renderTrips TD))) =
        some ('\n' :: (renderTrips TE ++ (markerText decName ++ '\n' :: renderTrips TD))) :=
      searchFrom_head_some (by simp [markerText, eqs])
        (matchMarkerMylib_self (by decide) encName_head_not_ws _)
    have hsec : mylibSection encName
        (markerText encName ++ '\n' ::
          (renderTrips TE ++ (markerText decName ++ '\n' :: renderTrips TD))) =
        some (takeBody ('\n' ::
          (renderTrips TE ++ (markerText decName ++ '\n' :: renderTrips TD)))) := by
      unfold mylibSection
      rw [hsearch]
      rfl
    have hshape : ('\n' ::
        (renderTrips TE ++ (markerText decName ++ '\n' :: renderTrips TD)) : List Char) =
        ('\n' :: renderTrips TE) ++
          ('=' :: '=' :: (('=' :: ' ' :: (decName ++ ' ' :: eqs)) ++ '\n' :: renderTrips TD)) := by
      simp [markerText, eqs, List.append_assoc]
    have htb : takeBody ('\n' ::
        (renderTrips TE ++ (markerText decName ++ '\n' :: renderTrips TD))) =
        '\n' :: renderTrips TE := by
      rw [hshape]
      apply takeBody_upto_eq2
      intro ch hch
      rcases List.mem_cons.mp hch with rfl | hch
      · decide
      · exact renderTrips_ne_eq hTEg ch hch
    rw [hsec, htb, extractMylib_some, findTriplets_skip (by decide),
      findTriplets_renderTrips_nil hTEg]
    exact optMap_of_forall rowOfValid (fun t ht => rowOfTriplet_eq_of_valid (hTE t ht))
  · have hL4 : matchMarkerMylib decName (eqs ++ '\n' ::
        (renderTrips TE ++ (markerText decName ++ '\n' :: renderTrips TD))) = none := by
      apply matchDec_eqs_newline_none2
      intro y hy
      rcases TE with _ | ⟨t0, TE'⟩
      · rw [show ((renderTrips ([] : List (List Char × List Char × List Char)) ++
            (markerText decName ++ '\n' :: renderTrips TD)) : List Char) =
            markerText decName ++ '\n' :: renderTrips TD from by
          rw [show renderTrips ([] : List (List Char × List Char × List Char)) = []
            from rfl, List.nil_append]] at hy
        have hself : ((markerText decName ++ '\n' :: renderTrips TD : List Char)).dropWhile
            pyWS = markerText decName ++ '\n' :: renderTrips TD := by
          show skipWS _ = _
          apply skipWS_eq_self
          intro x hx
          rw [show ((markerText decName ++ '\n' :: renderTrips TD :
            List Char)).head? = some '=' from rfl] at hx
          obtain rfl := Option.some.inj hx
          decide
        rw [hself,
          show ((markerText decName ++ '\n' :: renderTrips TD : List Char)).head? =
            some '=' from rfl] at hy
        obtain rfl := Option.some.inj hy
        decide
      · obtain ⟨dd, ds, hdd, hdecomp⟩ :=
          renderTrips_cons_decomp (hTEg t0 (List.mem_cons_self ..))
        rw [hdecomp, List.cons_append, List.dropWhile_cons,
          if_neg (by rw [dig_not_ws hdd]; simp)] at hy
        rw [show ((dd :: (ds ++ (markerText decName ++ '\n' :: renderTrips TD)) :
          List Char)).head? = some dd from rfl] at hy
        obtain rfl := Option.some.inj hy
        intro heq
        rw [heq] at hdd
        exact absurd hdd (by decide)
    have hskip := searchFrom_skip_encMarker
      (fun x hx => by rw [head_cons_case hx]; decide) hL4
    have hstep : searchFrom (matchMarkerMylib decName) ('\n' ::
        (renderTrips TE ++ (markerText decName ++ '\n' :: renderTrips TD))) =
        searchFrom (matchMarkerMylib decName)
          (renderTrips TE ++ (markerText decName ++ '\n' :: renderTrips TD)) := by
      rw [searchFrom_cons, matchMarkerMylib_none1 (dropLit_eqs_none
        (fun y hy => by rw [head_cons_case hy]; decide))]
    have hmid : searchFrom (matchMarkerMylib decName)
        (renderTrips TE ++ (markerText decName ++ '\n' :: renderTrips TD)) =
        searchFrom (matchMarkerMylib decName)
          (markerText decName ++ '\n' :: renderTrips TD) :=
      searchFrom_append_none (fun a' ha' hne => by
        cases a' with
        | nil => exact absurd rfl hne
        | cons ac at' =>
          have hac : ac ≠ '=' :=
            renderTrips_ne_eq hTEg ac (ha'.subset (List.mem_cons_self ..))
          rw [List.cons_append]
          exact matchMarkerMylib_none1 (dropLit_eqs_none
            (fun y hy => by rw [head_cons_case hy]; exact hac)))
    have hfound : searchFrom (matchMarkerMylib decName)
        (markerText decName ++ '\n' :: renderTrips TD) =
        some ('\n' :: renderTrips TD) :=
      searchFrom_head_some (by simp [markerText, eqs])
        (matchMarkerMylib_self (by decide) decName_head_not_ws _)
    have hsec : mylibSection decName
        (markerText encName ++ '\n' ::
          (renderTrips TE ++ (markerText decName ++ '\n' :: renderTrips TD))) =
        some (takeBody ('\n' :: renderTrips TD)) := by
      unfold mylibSection
      rw [hskip, hstep, hmid, hfound]
      rfl
    have htb2 : takeBody ('\n' :: renderTrips TD) = '\n' :: renderTrips TD :=
      takeBody_all (by
        intro ch hch
        rcases List.mem_cons.mp hch with rfl | hch
        · decide
        · exact renderTrips_ne_eq hTDg ch hch)
    rw [hsec, htb2, extractMylib_some, findTriplets_skip (by decide),
      findTriplets_renderTrips_nil hTDg]
    exact optMap_of_forall rowOfValid (fun t ht => rowOfTriplet_eq_of_valid (hTD t ht))

/-! ## Rendering rows back into triplet lines -/

/-- The triplet of tokens a row renders to. -/
def tripOfRow (r : Row) : List Char × List Char × List Char :=
  (digitsN r.threads, renderQ r.chunkMB, renderQ r.throughput)

/-- Reconstructed two-section text of a parsed result. -/
def renderTables (e d : List Row) : List Char :=
  markerText encName ++ '\n' :: (renderTrips (e.map tripOfRow) ++
    (markerText decName ++ '\n' :: renderTrips (d.map tripOfRow)))

theorem renderQ_numToken (q : ℚ) : NumToken (renderQ q) := by
  constructor
  · intro h
    have h2 := (List.append_eq_nil.mp h).2
    simp at h2
  · intro c hc
    rw [show renderQ q = digitsN (renderNum q / 10 ^ q.den) ++
      '.' :: padDigits q.den (renderNum q % 10 ^ q.den) from rfl] at hc
    rcases List.mem_append.mp hc with hc | hc
    · exact dig_numCh ((digitsN_spec _).2.1 c hc)
    · rcases List.mem_cons.mp hc with rfl | hc
      · decide
      · have hFlt : renderNum q % 10 ^ q.den < 10 ^ q.den :=
          Nat.mod_lt _ (pow_pos (by omega) _)
        exact dig_numCh ((padDigits_spec q.den _ hFlt).1 c hc)

theorem validTrip_tripOfRow {r : Row} (h1 : RatDec r.chunkMB) (h2 : RatDec r.throughput) :
    ValidTrip (tripOfRow r) := by
  refine ⟨⟨⟨(digitsN_spec r.threads).1, (digitsN_spec r.threads).2.1⟩,
    renderQ_numToken _, renderQ_numToken _⟩, ?_, ?_⟩
  · show (floatOfToken (renderQ r.chunkMB)).isSome = true
    rw [floatOfToken_renderQ h1]
    rfl
  · show (floatOfToken (renderQ r.throughput)).isSome = true
    rw [floatOfToken_renderQ h2]
    rfl

theorem rowOfValid_tripOfRow {r : Row} (h1 : RatDec r.chunkMB) (h2 : RatDec r.throughput) :
    rowOfValid (tripOfRow r) = r := by
  show (⟨natOfDigits (digitsN r.threads), (floatOfToken (renderQ r.chunkMB)).getD 0,
      (floatOfToken (renderQ r.throughput)).getD 0⟩ : Row) = r
  rw [(digitsN_spec r.threads).2.2, floatOfToken_renderQ h1, floatOfToken_renderQ h2]
  rfl

/-- Claim C9, confirmed: rendering each parsed row back into a triplet
line under its section marker and re-parsing yields the identical
tables, in order and value. -/
theorem C9_roundtrip (text : List Char) (e d : List Row)
    (h : parse_mylib_results text = some (e, d)) :
    parse_mylib_results (renderTables e d) = some (e, d) := by
  obtain ⟨he, hd⟩ := parse_mylib_eq.mp h
  have hre : ∀ r ∈ e, RatDec r.chunkMB ∧ RatDec r.throughput := extractMylib_mem_ratDec he
  have hrd : ∀ r ∈ d, RatDec r.chunkMB ∧ RatDec r.throughput := extractMylib_mem_ratDec hd
  have hTE : ∀ t ∈ e.map tripOfRow, ValidTrip t := by
    intro t ht
    rw [List.mem_map] at ht
    obtain ⟨r, hr, rfl⟩ := ht
    exact validTrip_tripOfRow (hre r hr).1 (hre r hr).2
  have hTD : ∀ t ∈ d.map tripOfRow, ValidTrip t := by
    intro t ht
    rw [List.mem_map] at ht
    obtain ⟨r, hr, rfl⟩ := ht
    exact validTrip_tripOfRow (hrd r hr).1 (hrd r hr).2
  unfold renderTables
  rw [parse_mylib_two_sections hTE hTD]
  have hmape : (e.map tripOfRow).map rowOfValid = e := by
    rw [List.map_map]
    have hpt : ∀ r ∈ e, (rowOfValid ∘ tripOfRow) r = id r := fun r hr =>
      rowOfValid_tripOfRow (hre r hr).1 (hre r hr).2
    rw [List.map_congr_left hpt, List.map_id]
  have hmapd : (d.map tripOfRow).map rowOfValid = d := by
    rw [List.map_map]
    have hpt : ∀ r ∈ d, (rowOfValid ∘ tripOfRow) r = id r := fun r hr =>
      rowOfValid_tripOfRow (hrd r hr).1 (hrd r hr).2
    rw [List.map_congr_left hpt, List.map_id]
  rw [hmape, hmapd]

theorem C9_roundtrip_witness :
    parse_mylib_results (renderTables
        [⟨1, mkRat 4 1, mkRat 1205 10⟩, ⟨2, mkRat 4 1, mkRat 2301 10⟩]
        [⟨1, mkRat 4 1, mkRat 1500 10⟩]) =
      some ([⟨1, mkRat 4 1, mkRat 1205 10⟩, ⟨2, mkRat 4 1, mkRat 2301 10⟩],
        [⟨1, mkRat 4 1, mkRat 1500 10⟩]) :=
  C9_roundtrip
    (("=== ENCRYPTION THREAD/CHUNK SWEEP ===\n1 | 4 | 120.5\n2 | 4 | 230.1\n=== DECRYPTION THREAD/CHUNK SWEEP ===\n1 | 4 | 150.0\n").data)
    [⟨1, mkRat 4 1, mkRat 1205 10⟩, ⟨2, mkRat 4 1, mkRat 2301 10⟩]
    [⟨1, mkRat 4 1, mkRat 1500 10⟩]
    (by decide)
